import Mathlib

/-!
Verification development for the multi-transport MCP connection hub
(src/src/services/mcp/InMemoryMcpServer.ts, class McpHub together with the
InMemoryFileCoolServer wrapper).

The hub state that the verified claims concern is:
  - the list of connections (McpHub.connections),
  - the persisted memory-server tool states (McpHub.memoryServerToolStates),
  - the persisted memory-server disabled states (McpHub.memoryServerDisabledStates).

External effects (the MCP SDK client, transports, the settings files on disk,
variable injection, timers and the webview) are abstracted into an environment
record Ext; every Ext field documents exactly which source-level effect it
stands for.  Server configurations are stored by the source as JSON text
(JSON.stringify of the validated config) and re-parsed wherever they are read;
the model keeps the parsed value (a RawConfig) directly, which is faithful
because stringify/parse round-trips plain data.
-/

namespace McpHubModel

/-- Configuration provenance of a connection.  The source uses the string
literals "global", "project" and "memory"; "memory" is what the design
documents call the ephemeral scope. -/
inductive Source where
  | global
  | project
  | memory
deriving DecidableEq, Repr

/-- Connection status, exactly the three strings used by the source. -/
inductive Status where
  | connecting
  | connected
  | disconnected
deriving DecidableEq, Repr

/-- Log level of an error-history entry ("error" | "warn" | "info"). -/
inductive Level where
  | error
  | warn
  | info
deriving DecidableEq, Repr

/-- One entry of a server error history: { message, timestamp, level }. -/
structure ErrorEntry where
  message : String
  timestamp : Nat
  level : Level
deriving DecidableEq, Repr

/-- A bare tool descriptor as returned by a tools/list response, before the
hub merges in the permission flags.  Fields of the descriptor other than the
name and description (such as the input schema) never influence the hub
logic modelled here. -/
structure ToolDescriptor where
  name : String
  description : String := ""
deriving DecidableEq, Repr

/-- A tool as cached on a server: the descriptor plus the two permission
flags computed by McpHub.fetchToolsList. -/
structure McpTool where
  name : String
  description : String := ""
  alwaysAllow : Bool := false
  enabledForPrompt : Bool := true
deriving DecidableEq, Repr

/-- A server configuration as found in a parsed settings JSON object, before
validation.  Absent JSON keys are modelled as none; JSON.stringify omits
undefined fields, so none also models the omitted fields of a serialized
config.  The model covers the well-typed fragment of JSON configs (a field,
when present, has the type the schema expects); the shape checks that remain
are encoded in schemaParse below. -/
structure RawConfig where
  type : Option String := none
  command : Option String := none
  args : Option (List String) := none
  cwd : Option String := none
  env : Option (List (String × String)) := none
  url : Option String := none
  headers : Option (List (String × String)) := none
  disabled : Option Bool := none
  timeout : Option Nat := none
  alwaysAllow : Option (List String) := none
  watchPaths : Option (List String) := none
  disabledTools : Option (List String) := none
deriving DecidableEq, Repr

/-- The output of ServerConfigSchema.parse: the union branches always produce
a concrete type tag, a timeout defaulted to 600, alwaysAllow and
disabledTools defaulted to [], and (for stdio) a defaulted cwd. -/
structure ValidatedConfig where
  type : String
  command : Option String := none
  args : Option (List String) := none
  cwd : Option String := none
  env : Option (List (String × String)) := none
  url : Option String := none
  headers : Option (List (String × String)) := none
  disabled : Option Bool := none
  timeout : Nat := 600
  alwaysAllow : List String := []
  watchPaths : Option (List String) := none
  disabledTools : List String := []
deriving DecidableEq, Repr

/-- The logical server record held by each connection (the shared McpServer
shape, restricted to the fields the hub reads or writes). -/
structure McpServer where
  name : String
  config : RawConfig
  status : Status
  disabled : Option Bool := none
  source : Option Source := none
  projectPath : Option String := none
  error : Option String := none
  instructions : Option String := none
  errorHistory : List ErrorEntry := []
  tools : Option (List McpTool) := none
  resources : Option (List String) := none
  resourceTemplates : Option (List String) := none
deriving DecidableEq, Repr

/-- A connection of the hub.  The client and transport handles of the source
McpConnection are external I/O objects; every state change they can cause
flows through the server record, so only the server record is modelled. -/
structure McpConnection where
  server : McpServer
deriving DecidableEq, Repr

/-- Per-server snapshot of tool permission state, as stored in
McpHub.memoryServerToolStates. -/
structure ToolStatePair where
  alwaysAllow : List String := []
  disabledTools : List String := []
deriving DecidableEq, Repr

/-- The mutable hub state relevant to the claims. -/
structure HubState where
  connections : List McpConnection := []
  memoryServerToolStates : List (String × ToolStatePair) := []
  memoryServerDisabledStates : List (String × Bool) := []
deriving DecidableEq, Repr

/-- Observable reconciliation actions: close is one connection actually shut
down and removed by deleteConnection; create is one invocation of
connectToServer (which always constructs a client and a transport). -/
inductive HubAction where
  | close (name : String) (source : Option Source)
  | create (name : String)
deriving DecidableEq, Repr

/-- Environment of externally determined values.  Each field abstracts one
effectful collaborator of the hub. -/
structure Ext where
  /-- Abstraction of injectVariables (src/utils/config, not part of the
  provided sources): substitutes environment and workspace variables into
  the string-valued transport fields of a config.  Modelled as an arbitrary
  substitution on strings; it never touches the non-string fields. -/
  subst : String → String
  /-- Result of the zod url() format check for a given string. -/
  urlOk : String → Bool
  /-- Default cwd for stdio configs (first workspace folder or process cwd). -/
  defaultCwd : String
  /-- First workspace folder path, recorded as projectPath on project
  connections. -/
  workspacePath : String
  /-- Whether client.connect(transport) succeeds for the named server. -/
  connectOk : String → Bool
  /-- client.getInstructions() after a successful connect. -/
  instructions : String → Option String
  /-- Message of the error thrown by a failed connect. -/
  connectErrMsg : String → String
  /-- Date.now() at the time an error is recorded. -/
  now : Nat
  /-- Response of the tools/list request for the named server; none models a
  failed request. -/
  toolDescriptors : String → Option (List ToolDescriptor)
  /-- Response of the resources/list request (URIs only); none models a
  failed request. -/
  resourcesList : String → Option (List String)
  /-- Response of the resources/templates/list request; none models a failed
  request. -/
  templatesList : String → Option (List String)
  /-- alwaysAllow list read for a server from the global or project settings
  file inside fetchToolsList (a read failure yields []). -/
  diskAlwaysAllow : Source → String → List String
  /-- disabledTools list read for a server from the global or project
  settings file inside fetchToolsList. -/
  diskDisabledTools : Source → String → List String
  /-- mcpGatewayEnabled from provider state. -/
  gatewayEnabled : Bool
  /-- Trimmed (mcpGatewayUrl, mcpGatewayApiKey) when both are nonempty. -/
  gatewayConfig : Option (String × String)
  /-- Parsed server-list response of the gateway, as (name, path) pairs;
  none models a failed or malformed response. -/
  serverList : Option (List (String × String))
  /-- Whether InMemoryFileCoolServer.connect() succeeds. -/
  fileCoolOk : Bool

/-- Lookup in an association list keyed by strings (Map.get). -/
def lookupA {α : Type} : List (String × α) → String → Option α
  | [], _ => none
  | (k, v) :: rest, key => if k = key then some v else lookupA rest key

/-- Update in an association list keyed by strings (Map.set): replaces the
first binding of the key, or appends a new binding, preserving insertion
order like a JS Map. -/
def setAssoc {α : Type} : List (String × α) → String → α → List (String × α)
  | [], key, v => [(key, v)]
  | (k, w) :: rest, key, v =>
    if k = key then (key, v) :: rest else (k, w) :: setAssoc rest key v

/-- First-occurrence deduplication, the iteration order of a JS Set built by
insertion. -/
def dedup (l : List String) : List String :=
  l.foldl (fun acc x => if acc.contains x then acc else acc ++ [x]) []

/-- Last n elements of a list (Array.prototype.slice(-n) for n > 0). -/
def lastN {α : Type} (n : Nat) (l : List α) : List α :=
  l.drop (l.length - n)

/-! ### Configuration validation

The error message constants mirror the constants of the source module; the
quoted field names of the original texts are abbreviated since only the
identity of each message matters to the claims. -/

def typeErrorMessage : String :=
  "Server type must be stdio, sse, or streamable-http"

def stdioFieldsErrorMessage : String :=
  "For stdio type servers, you must provide a command field"

def sseFieldsErrorMessage : String :=
  "For sse type servers, you must provide a url field"

def streamableHttpFieldsErrorMessage : String :=
  "For streamable-http type servers, you must provide a url field"

def mixedFieldsErrorMessage : String :=
  "Cannot mix stdio and url-based fields"

def missingFieldsErrorMessage : String :=
  "Server configuration must include either command or url"

def urlTypeRequiredErrorMessage : String :=
  "Configuration with url must explicitly specify type as sse or streamable-http."

/-- Stand-in for the formatted zod issue list produced when
ServerConfigSchema.parse rejects; no claim inspects its wording. -/
def schemaErrorMessage : String :=
  "Invalid server configuration"

/-- Base schema check shared by every union branch: timeout, when present,
must lie in [1, 3600] (min(1).max(3600), default 600). -/
def baseTimeoutOk (c : RawConfig) : Bool :=
  match c.timeout with
  | none => true
  | some t => decide (1 ≤ t ∧ t ≤ 3600)

/-- Stdio branch of ServerConfigSchema: type absent or "stdio", nonempty
command, no url and no headers, cwd defaulted; transforms type to "stdio". -/
def parseStdioBranch (defaultCwd : String) (c : RawConfig) : Option ValidatedConfig :=
  match c.command with
  | none => none
  | some cmd =>
    if (c.type = none ∨ c.type = some "stdio") ∧ 1 ≤ cmd.length ∧
        c.url = none ∧ c.headers = none ∧ baseTimeoutOk c = true then
      some { type := "stdio", command := some cmd, args := c.args,
             cwd := some (c.cwd.getD defaultCwd), env := c.env,
             disabled := c.disabled, timeout := c.timeout.getD 600,
             alwaysAllow := c.alwaysAllow.getD [], watchPaths := c.watchPaths,
             disabledTools := c.disabledTools.getD [] }
    else none

/-- SSE branch of ServerConfigSchema: type absent or "sse", a url passing the
format check, no command, args or env; transforms type to "sse". -/
def parseSseBranch (urlOk : String → Bool) (c : RawConfig) : Option ValidatedConfig :=
  match c.url with
  | none => none
  | some u =>
    if (c.type = none ∨ c.type = some "sse") ∧ urlOk u = true ∧
        c.command = none ∧ c.args = none ∧ c.env = none ∧ baseTimeoutOk c = true then
      some { type := "sse", url := some u, headers := c.headers,
             disabled := c.disabled, timeout := c.timeout.getD 600,
             alwaysAllow := c.alwaysAllow.getD [], watchPaths := c.watchPaths,
             disabledTools := c.disabledTools.getD [] }
    else none

/-- Streamable-HTTP branch of ServerConfigSchema, analogous to the SSE
branch with the "streamable-http" tag. -/
def parseStreamableHttpBranch (urlOk : String → Bool) (c : RawConfig) : Option ValidatedConfig :=
  match c.url with
  | none => none
  | some u =>
    if (c.type = none ∨ c.type = some "streamable-http") ∧ urlOk u = true ∧
        c.command = none ∧ c.args = none ∧ c.env = none ∧ baseTimeoutOk c = true then
      some { type := "streamable-http", url := some u, headers := c.headers,
             disabled := c.disabled, timeout := c.timeout.getD 600,
             alwaysAllow := c.alwaysAllow.getD [], watchPaths := c.watchPaths,
             disabledTools := c.disabledTools.getD [] }
    else none

/-- ServerConfigSchema.parse: a zod union that returns the result of the
first succeeding branch, in declaration order stdio, sse, streamable-http. -/
def schemaParse (urlOk : String → Bool) (defaultCwd : String) (c : RawConfig) :
    Option ValidatedConfig :=
  match parseStdioBranch defaultCwd c with
  | some v => some v
  | none =>
    match parseSseBranch urlOk c with
    | some v => some v
    | none => parseStreamableHttpBranch urlOk c

/-- McpHub.validateServerConfig: the hand-written pre-checks (mixed fields,
type inference for stdio, explicit type required for url configs, type
validity, type/field mismatch, missing fields) followed by the schema
parse. -/
def validateServerConfig (urlOk : String → Bool) (defaultCwd : String)
    (config : RawConfig) : Except String ValidatedConfig :=
  let hasStdioFields := config.command.isSome
  let hasUrlFields := config.url.isSome
  if hasStdioFields ∧ hasUrlFields then .error mixedFieldsErrorMessage
  else
    -- the source mutates config.type in place when inferring stdio
    let config := if config.type = none ∧ hasStdioFields then
        { config with type := some "stdio" } else config
    if hasUrlFields ∧ config.type = none then .error urlTypeRequiredErrorMessage
    else if ¬ (config.type = none ∨ config.type = some "stdio" ∨
        config.type = some "sse" ∨ config.type = some "streamable-http") then
      .error typeErrorMessage
    else if config.type = some "stdio" ∧ ¬ hasStdioFields then
      .error stdioFieldsErrorMessage
    else if config.type = some "sse" ∧ ¬ hasUrlFields then
      .error sseFieldsErrorMessage
    else if config.type = some "streamable-http" ∧ ¬ hasUrlFields then
      .error streamableHttpFieldsErrorMessage
    else if ¬ hasStdioFields ∧ ¬ hasUrlFields then
      .error missingFieldsErrorMessage
    else
      match schemaParse urlOk defaultCwd config with
      | some vc => .ok vc
      | none => .error schemaErrorMessage

/-- JSON.parse of JSON.stringify applied to a validated config: the fields
that the schema always populates come back as present keys, the optional
ones only when set (undefined fields are omitted by stringify). -/
def ValidatedConfig.toRaw (v : ValidatedConfig) : RawConfig :=
  { type := some v.type, command := v.command, args := v.args, cwd := v.cwd,
    env := v.env, url := v.url, headers := v.headers, disabled := v.disabled,
    timeout := some v.timeout, alwaysAllow := some v.alwaysAllow,
    watchPaths := v.watchPaths, disabledTools := some v.disabledTools }

/-- Variable injection applied to a validated config (see Ext.subst): the
substitution reaches the string-valued transport fields and leaves the type
tag, disabled, timeout and the tool-name lists untouched. -/
def injectConfig (subst : String → String) (v : ValidatedConfig) : ValidatedConfig :=
  { v with
    command := v.command.map subst,
    args := v.args.map fun l => l.map subst,
    cwd := v.cwd.map subst,
    env := v.env.map fun l => l.map fun p => (p.1, subst p.2),
    url := v.url.map subst,
    headers := v.headers.map fun l => l.map fun p => (p.1, subst p.2),
    watchPaths := v.watchPaths.map fun l => l.map subst }

/-! ### Per-connection operations -/

/-- Truncation applied by McpHub.appendErrorMessage: messages longer than
MAX_ERROR_LENGTH = 1000 keep their first 1000 characters and gain the
truncation marker. -/
def truncateError (e : String) : String :=
  if e.length > 1000 then e.take 1000 ++ "...(error message truncated)"
  else e

/-- McpHub.appendErrorMessage: push the truncated message onto the error
history, clamp the history to its newest 100 entries (slice(-100)), and
overwrite the current error display.  The source lazily creates the history
array when it is undefined; the model represents that state as []. -/
def appendErrorMessage (connection : McpConnection) (error : String)
    (now : Nat) (level : Level) : McpConnection :=
  let truncatedError := truncateError error
  let history := connection.server.errorHistory ++
    [{ message := truncatedError, timestamp := now, level := level }]
  let history := if history.length > 100 then lastN 100 history else history
  ⟨{ connection.server with errorHistory := history, error := some truncatedError }⟩

/-- Folded appendErrorMessage over a batch of (message, timestamp) pairs at
level error (the default level of the source). -/
def appendErrors (connection : McpConnection) (msgs : List (String × Nat)) :
    McpConnection :=
  msgs.foldl (fun c m => appendErrorMessage c m.1 m.2 Level.error) connection

/-- McpHub.findConnection.  With a source argument: first connection whose
name and source both match exactly.  Without: first project match, then
first match whose source is global or unset, then first memory match. -/
def findConnection (cs : List McpConnection) (serverName : String)
    (src? : Option Source) : Option McpConnection :=
  match src? with
  | some s =>
    cs.find? fun c => decide (c.server.name = serverName ∧ c.server.source = some s)
  | none =>
    match cs.find? (fun c => decide (c.server.name = serverName ∧
        c.server.source = some Source.project)) with
    | some c => some c
    | none =>
      match cs.find? (fun c => decide (c.server.name = serverName ∧
          (c.server.source = some Source.global ∨ c.server.source = none))) with
      | some c => some c
      | none =>
        cs.find? fun c => decide (c.server.name = serverName ∧
          c.server.source = some Source.memory)

/-- Predicate selecting the connections McpHub.deleteConnection closes and
removes: matching name, and matching source when a source is given.  Note
that with a given source a connection whose source field is unset is not
matched (undefined !== "global" in the source). -/
def delMatches (name : String) (src? : Option Source) (c : McpConnection) : Bool :=
  match src? with
  | none => decide (c.server.name = name)
  | some s => decide (c.server.name = name ∧ c.server.source = some s)

/-- McpHub.deleteConnection: close every matching connection and filter the
connection list; returns the remaining list and one close action per
connection actually shut down. -/
def deleteConnection (cs : List McpConnection) (name : String)
    (src? : Option Source) : List McpConnection × List HubAction :=
  (cs.filter fun c => !(delMatches name src? c),
   (cs.filter (delMatches name src?)).map fun c =>
     HubAction.close c.server.name c.server.source)

/-! ### Capability discovery -/

/-- McpHub.fetchToolsList.  A missing connection or a failed tools/list
request is caught and yields [] without touching any connection state.  On
success, per-tool flags are merged in: for global/project servers from the
alwaysAllow and disabledTools lists of the settings file on disk, for memory
servers from the saved memoryServerToolStates entry, falling back to the
flags of the tools currently cached on the connection. -/
def fetchToolsList (ext : Ext) (h : HubState) (serverName : String)
    (src? : Option Source) : List McpTool :=
  match findConnection h.connections serverName src? with
  | none => []
  | some conn =>
    match ext.toolDescriptors serverName with
    | none => []
    | some raw =>
      let actualSource := conn.server.source.getD Source.global
      let lists :=
        if actualSource ≠ Source.memory then
          (ext.diskAlwaysAllow actualSource serverName,
           ext.diskDisabledTools actualSource serverName)
        else
          match lookupA h.memoryServerToolStates serverName with
          | some st => (st.alwaysAllow, st.disabledTools)
          | none =>
            let existingTools := conn.server.tools.getD []
            ((existingTools.filter fun t => t.alwaysAllow).map fun t => t.name,
             (existingTools.filter fun t => !t.enabledForPrompt).map fun t => t.name)
      raw.map fun t =>
        { name := t.name, description := t.description,
          alwaysAllow := lists.1.contains t.name,
          enabledForPrompt := !(lists.2.contains t.name) }

/-- McpHub.fetchResourcesList: empty on a missing connection or failed
request, otherwise the response URIs. -/
def fetchResourcesList (ext : Ext) (h : HubState) (serverName : String)
    (src? : Option Source) : List String :=
  match findConnection h.connections serverName src? with
  | none => []
  | some _ => (ext.resourcesList serverName).getD []

/-- McpHub.fetchResourceTemplatesList, analogous to fetchResourcesList. -/
def fetchResourceTemplatesList (ext : Ext) (h : HubState) (serverName : String)
    (src? : Option Source) : List String :=
  match findConnection h.connections serverName src? with
  | none => []
  | some _ => (ext.templatesList serverName).getD []

/-! ### Connecting -/

/-- The server record connectToServer pushes before attempting to connect:
name, serialized injected config, connecting status, the disabled flag of
the injected config, the given source and an empty error history. -/
def connectBase (ext : Ext) (name : String) (vc : ValidatedConfig)
    (src : Source) : McpServer :=
  let ci := injectConfig ext.subst vc
  { name := name, config := ci.toRaw, status := Status.connecting,
    disabled := ci.disabled, source := some src,
    projectPath := if src = Source.project then some ext.workspacePath else none,
    errorHistory := [] }

/-- The pushed server record right after a successful client.connect: status
connected, cleared error display, recorded instructions, capabilities not
yet fetched. -/
def connectedServerBase (ext : Ext) (name : String) (vc : ValidatedConfig)
    (src : Source) : McpServer :=
  { connectBase ext name vc src with
    status := Status.connected,
    error := some "",
    instructions := ext.instructions name }

/-- Successful-connect path of McpHub.connectToServer: the prior connection
of the same name and source is removed, the new connection is pushed, then
its three capability lists are fetched against the state containing it. -/
def connectSuccess (ext : Ext) (h : HubState) (name : String)
    (vc : ValidatedConfig) (src : Source) : HubState × List HubAction :=
  let deleted := deleteConnection h.connections name (some src)
  let hTmp : HubState :=
    { h with connections := deleted.1 ++ [⟨connectedServerBase ext name vc src⟩] }
  let final : McpServer :=
    { connectedServerBase ext name vc src with
      tools := some (fetchToolsList ext hTmp name (some src)),
      resources := some (fetchResourcesList ext hTmp name (some src)),
      resourceTemplates := some (fetchResourceTemplatesList ext hTmp name (some src)) }
  ({ h with connections := deleted.1 ++ [⟨final⟩] },
   deleted.2 ++ [HubAction.create name])

/-- Failed-connect path of McpHub.connectToServer: the pushed connection is
found by the catch block, marked disconnected and given the error message;
it stays in the list. -/
def connectFailure (ext : Ext) (h : HubState) (name : String)
    (vc : ValidatedConfig) (src : Source) : HubState × List HubAction :=
  let deleted := deleteConnection h.connections name (some src)
  let failed := appendErrorMessage
    ⟨{ connectBase ext name vc src with status := Status.disconnected }⟩
    (ext.connectErrMsg name) ext.now Level.error
  ({ h with connections := deleted.1 ++ [failed] },
   deleted.2 ++ [HubAction.create name])

/-- McpHub.connectToServer.  Always: remove any previous connection of the
same name and source, inject variables into the validated config, construct
a transport and a client (the create action), and push a connection whose
stored config is the serialized injected config; then the success or
failure path above.  The file-watcher bookkeeping of the source has no
effect on the hub state modelled here. -/
def connectToServer (ext : Ext) (h : HubState) (name : String)
    (vc : ValidatedConfig) (src : Source) : HubState × List HubAction :=
  if ext.connectOk name then connectSuccess ext h name vc src
  else connectFailure ext h name vc src

/-! ### Reconciliation (McpHub.updateServerConnections) -/

/-- The connections a reconciliation for the given source considers its
current set: in-memory connections are always excluded, and a connection
whose source is unset counts as global. -/
def reconciledConnections (cs : List McpConnection) (src : Source) :
    List McpConnection :=
  cs.filter fun c => decide (c.server.source ≠ some Source.memory ∧
    (c.server.source = some src ∨ (c.server.source = none ∧ src = Source.global)))

/-- Deletion phase of updateServerConnections: every current name absent
from the incoming config map is passed to deleteConnection for this source. -/
def deleteRemoved (src : Source) (newNames : List String) :
    List String → List McpConnection × List HubAction →
    List McpConnection × List HubAction
  | [], acc => acc
  | n :: rest, (cs, log) =>
    if newNames.contains n then deleteRemoved src newNames rest (cs, log)
    else
      let d := deleteConnection cs n (some src)
      deleteRemoved src newNames rest (d.1, log ++ d.2)

/-- Update-or-add phase of updateServerConnections, iterating the incoming
entries in object order.  Per entry: resolve the current connection for this
exact source, validate the raw config (an invalid entry is reported and
skipped), then create, do nothing when the stored config deep-equals the
incoming raw entry, or delete and recreate when it differs. -/
def processEntries (ext : Ext) (src : Source) :
    List (String × RawConfig) → HubState × List HubAction →
    HubState × List HubAction
  | [], acc => acc
  | (n, cfg) :: rest, (h, log) =>
    let cur := findConnection h.connections n (some src)
    match validateServerConfig ext.urlOk ext.defaultCwd cfg with
    | .error _ => processEntries ext src rest (h, log)
    | .ok vc =>
      match cur with
      | none =>
        let r := connectToServer ext h n vc src
        processEntries ext src rest (r.1, log ++ r.2)
      | some c =>
        if c.server.config = cfg then processEntries ext src rest (h, log)
        else
          let d := deleteConnection h.connections n (some src)
          let r := connectToServer ext { h with connections := d.1 } n vc src
          processEntries ext src rest (r.1, log ++ d.2 ++ r.2)

/-- McpHub.updateServerConnections: reconcile the incoming configuration map
for one source against the current connections of that source.  The
isConnecting flag, file watchers and the webview notification have no effect
on the modelled state. -/
def updateServerConnections (ext : Ext) (h : HubState)
    (newServers : List (String × RawConfig)) (src : Source) :
    HubState × List HubAction :=
  let current := reconciledConnections h.connections src
  let currentNames := dedup (current.map fun c => c.server.name)
  let newNames := newServers.map Prod.fst
  let d := deleteRemoved src newNames currentNames (h.connections, [])
  processEntries ext src newServers ({ h with connections := d.1 }, d.2)

/-! ### Memory-server state preservation and ephemeral refresh -/

/-- Snapshot of the permission flags carried by a tool list, as computed by
McpHub.saveMemoryServerToolStates for one connection. -/
def toolStateOf (ts : List McpTool) : ToolStatePair :=
  { alwaysAllow := (ts.filter fun t => t.alwaysAllow).map fun t => t.name,
    disabledTools := (ts.filter fun t => !t.enabledForPrompt).map fun t => t.name }

/-- Iteration of saveMemoryServerToolStates over the snapshot of memory
connections: each one overwrites its map entries with the state read off its
current tools (an undefined tool list contributes empty lists) and its
disabled flag (undefined counts as false). -/
def saveStatesList : List McpConnection → HubState → HubState
  | [], h => h
  | c :: rest, h =>
    saveStatesList rest
      { h with
        memoryServerToolStates :=
          setAssoc h.memoryServerToolStates c.server.name
            (toolStateOf (c.server.tools.getD [])),
        memoryServerDisabledStates :=
          setAssoc h.memoryServerDisabledStates c.server.name
            (c.server.disabled.getD false) }

/-- McpHub.saveMemoryServerToolStates (the synchronous part; the trailing
globalState persistence writes the same maps to disk). -/
def saveMemoryServerToolStates (h : HubState) : HubState :=
  saveStatesList
    (h.connections.filter fun c => decide (c.server.source = some Source.memory)) h

/-- Flag restoration applied by restoreMemoryServerToolStates to one tool
list from one saved state. -/
def restoreFlags (st : ToolStatePair) (ts : List McpTool) : List McpTool :=
  ts.map fun t =>
    { t with
      alwaysAllow := st.alwaysAllow.contains t.name,
      enabledForPrompt := !(st.disabledTools.contains t.name) }

/-- Per-connection step of restoreMemoryServerToolStates: a memory
connection with a saved state and a defined tool list gets its flags
rewritten from the saved state; every other connection is untouched. -/
def restoreConn (m : List (String × ToolStatePair)) (c : McpConnection) :
    McpConnection :=
  if c.server.source = some Source.memory then
    match lookupA m c.server.name, c.server.tools with
    | some st, some ts => ⟨{ c.server with tools := some (restoreFlags st ts) }⟩
    | _, _ => c
  else c

/-- McpHub.restoreMemoryServerToolStates: every memory connection that has a
saved state and a defined tool list gets its flags rewritten from the saved
state. -/
def restoreMemoryServerToolStates (h : HubState) : HubState :=
  { h with
    connections := h.connections.map (restoreConn h.memoryServerToolStates) }

/-- URL concatenation used when building gateway server URLs. -/
def joinUrl (base p : String) : String :=
  if base.endsWith "/" then base ++ p else base ++ "/" ++ p

/-- The validated streamable-http config built for each gateway-discovered
server. -/
def gatewayServerConfig (url apiKey p : String) (savedDisabled : Bool) :
    ValidatedConfig :=
  { type := "streamable-http", url := some (joinUrl url p),
    headers := some [("API_KEY", apiKey)], disabled := some savedDisabled,
    timeout := 600, alwaysAllow := [], disabledTools := [] }

/-- Loop body of initializeStreamableHttpGatewayServers: entries with an
empty name are skipped; each remaining server is connected with source
memory and a disabled flag read from the saved disabled states, defaulting
to true (disabled) when no prior state exists.  A connect failure is caught
per server and the loop continues. -/
def initGatewayList (ext : Ext) (url apiKey : String) :
    List (String × String) → HubState × List HubAction →
    HubState × List HubAction
  | [], acc => acc
  | (nm, p) :: rest, (h, log) =>
    if nm = "" then initGatewayList ext url apiKey rest (h, log)
    else
      let savedDisabled := (lookupA h.memoryServerDisabledStates nm).getD true
      let r := connectToServer ext h nm
        (gatewayServerConfig url apiKey p savedDisabled) Source.memory
      initGatewayList ext url apiKey rest (r.1, log ++ r.2)

/-- McpHub.initializeStreamableHttpGatewayServers: a failed or malformed
server-list fetch aborts the whole routine without touching the state. -/
def initializeStreamableHttpGatewayServers (ext : Ext) (h : HubState)
    (url apiKey : String) : HubState × List HubAction :=
  match ext.serverList with
  | none => (h, [])
  | some servers => initGatewayList ext url apiKey servers (h, [])

/-- The config string stored on the file-cool connection:
JSON.stringify of { type: "stdio", command: "in-memory" }. -/
def fileCoolStoredConfig : RawConfig :=
  { type := some "stdio", command := some "in-memory" }

/-- McpHub.initializeInMemoryFileCoolServer.  Nothing happens when the
gateway is disabled.  With a complete gateway configuration the
streamable-http gateway servers are initialized first.  Then the in-process
file-cool server is connected; on success a memory connection named
file-cool is pushed whose disabled flag comes from the saved disabled states
(defaulting to false, i.e. enabled) and whose capabilities are fetched
against the just-pushed connection; a failed connect is caught and leaves
the state as it was after the gateway loop. -/
def initializeInMemoryFileCoolServer (ext : Ext) (h : HubState) :
    HubState × List HubAction :=
  if ¬ ext.gatewayEnabled then (h, [])
  else
    let g :=
      match ext.gatewayConfig with
      | some cfg => initializeStreamableHttpGatewayServers ext h cfg.1 cfg.2
      | none => (h, [])
    if ¬ ext.fileCoolOk then g
    else
      let savedDisabledState :=
        (lookupA g.1.memoryServerDisabledStates "file-cool").getD false
      let server0 : McpServer :=
        { name := "file-cool", config := fileCoolStoredConfig,
          status := Status.connected, disabled := some savedDisabledState,
          source := some Source.memory, errorHistory := [],
          tools := some [], resources := some [], resourceTemplates := some [] }
      let hTmp : HubState := { g.1 with connections := g.1.connections ++ [⟨server0⟩] }
      let ts := fetchToolsList ext hTmp "file-cool" (some Source.memory)
      let rs := fetchResourcesList ext hTmp "file-cool" (some Source.memory)
      let tps := fetchResourceTemplatesList ext hTmp "file-cool" (some Source.memory)
      let final : McpServer :=
        { server0 with
          tools := some ts,
          resources := some rs,
          resourceTemplates := some tps }
      ({ g.1 with connections := g.1.connections ++ [⟨final⟩] },
       g.2 ++ [HubAction.create "file-cool"])

/-- Deletion loop of refreshInMemoryServers over the names of the current
memory connections. -/
def deleteConnectionsNamed (src : Source) :
    List String → HubState × List HubAction → HubState × List HubAction
  | [], acc => acc
  | n :: rest, (h, log) =>
    let d := deleteConnection h.connections n (some src)
    deleteConnectionsNamed src rest ({ h with connections := d.1 }, log ++ d.2)

/-- McpHub.refreshInMemoryServers: snapshot the memory-server permission and
disabled state, tear down every memory connection, re-run the in-memory
initialization and restore the snapshotted tool states onto the rebuilt
connections. -/
def refreshInMemoryServers (ext : Ext) (h : HubState) :
    HubState × List HubAction :=
  let h1 := saveMemoryServerToolStates h
  let memNames :=
    (h1.connections.filter fun c => decide (c.server.source = some Source.memory)).map
      fun c => c.server.name
  let d := deleteConnectionsNamed Source.memory memNames (h1, [])
  let r := initializeInMemoryFileCoolServer ext d.1
  (restoreMemoryServerToolStates r.1, d.2 ++ r.2)

/-! ### Tool permission toggles (memory branch) -/

/-- The two tool lists of a server config that updateServerToolList can
modify. -/
inductive ToolListName where
  | alwaysAllow
  | disabledTools
deriving DecidableEq, Repr

/-- Flag update applied to a found tool object by the memory branch of
updateServerToolList. -/
def applyToolFlag (listName : ToolListName) (addTool : Bool) (t : McpTool) : McpTool :=
  match listName with
  | .alwaysAllow => { t with alwaysAllow := addTool }
  | .disabledTools => { t with enabledForPrompt := !addTool }

/-- Update of the first tool with the given name in a tool list; the source
mutates the object returned by Array.prototype.find. -/
def updateFirstTool (toolName : String) (f : McpTool → McpTool) :
    List McpTool → List McpTool
  | [] => []
  | t :: rest =>
    if t.name = toolName then f t :: rest
    else t :: updateFirstTool toolName f rest

/-- Update of the first connection matching a name and source; the source
mutates the connection object returned by findConnection. -/
def updateFirstConnection (serverName : String) (src : Source)
    (f : McpConnection → McpConnection) : List McpConnection → List McpConnection
  | [] => []
  | c :: rest =>
    if c.server.name = serverName ∧ c.server.source = some src then f c :: rest
    else c :: updateFirstConnection serverName src f rest

/-- Membership update applied to a saved tool-name list: push when adding a
missing name, splice out the first occurrence when removing. -/
def updateSavedList (l : List String) (toolName : String) (addTool : Bool) :
    List String :=
  if addTool then (if l.contains toolName then l else l ++ [toolName])
  else l.erase toolName

/-- Per-connection tool-list rewrite used by the memory branch of
McpHub.updateServerToolList: map the update over the optional tool list of
the connection object in place. -/
def mapToolsConn (g : List McpTool → List McpTool)
    (c : McpConnection) : McpConnection :=
  ⟨{ c.server with tools := c.server.tools.map g }⟩

/-- The source === "memory" branch of McpHub.updateServerToolList: when the
connection exists, update the flag of the named tool on the connection (when
its tool list is defined) and update the saved per-server state used across
refreshes.  The other branch of the source writes through to a settings file
and refetches; it does not arise in the verified claims. -/
def updateServerToolListMemory (h : HubState) (serverName toolName : String)
    (listName : ToolListName) (addTool : Bool) : HubState :=
  match findConnection h.connections serverName (some Source.memory) with
  | none => h
  | some _ =>
    let cs := updateFirstConnection serverName Source.memory
      (mapToolsConn (updateFirstTool toolName (applyToolFlag listName addTool)))
      h.connections
    let st := (lookupA h.memoryServerToolStates serverName).getD {}
    let st' :=
      match listName with
      | .alwaysAllow =>
        { st with alwaysAllow := updateSavedList st.alwaysAllow toolName addTool }
      | .disabledTools =>
        { st with disabledTools := updateSavedList st.disabledTools toolName addTool }
    { h with
      connections := cs,
      memoryServerToolStates := setAssoc h.memoryServerToolStates serverName st' }

/-- McpHub.toggleToolAlwaysAllow for a memory-source server. -/
def toggleToolAlwaysAllowMemory (h : HubState) (serverName toolName : String)
    (shouldAllow : Bool) : HubState :=
  updateServerToolListMemory h serverName toolName ToolListName.alwaysAllow shouldAllow

/-- McpHub.toggleToolEnabledForPrompt for a memory-source server: enabling a
tool removes it from disabledTools, disabling adds it. -/
def toggleToolEnabledForPromptMemory (h : HubState) (serverName toolName : String)
    (isEnabled : Bool) : HubState :=
  updateServerToolListMemory h serverName toolName ToolListName.disabledTools !isEnabled

/-! ### Tool calls and resource reads -/

/-- Outcome of McpHub.callTool.  transportRequest is the single point at
which the request reaches the transport client, with the timeout computed
from the stored config (seconds times 1000, 600 when re-parsing the stored
config fails). -/
inductive ToolCallOutcome where
  | noConnection
  | serverDisabled
  | transportRequest (timeoutMs : Nat)
deriving DecidableEq, Repr

/-- Outcome of McpHub.readResource; transportRequest is the single point at
which the request reaches the transport client. -/
inductive ReadResourceOutcome where
  | noConnection
  | serverDisabled
  | transportRequest
deriving DecidableEq, Repr

/-- McpHub.callTool: resolve the connection, fail locally when missing or
disabled, otherwise issue the transport request with the configured
timeout. -/
def callTool (ext : Ext) (cs : List McpConnection) (serverName : String)
    (src? : Option Source) : ToolCallOutcome :=
  match findConnection cs serverName src? with
  | none => ToolCallOutcome.noConnection
  | some conn =>
    if conn.server.disabled.getD false then ToolCallOutcome.serverDisabled
    else
      let timeoutSecs :=
        match schemaParse ext.urlOk ext.defaultCwd conn.server.config with
        | some vc => vc.timeout
        | none => 600
      ToolCallOutcome.transportRequest (timeoutSecs * 1000)

/-- McpHub.readResource: resolve the connection, fail locally when missing
or disabled, otherwise issue the transport request. -/
def readResource (cs : List McpConnection) (serverName : String)
    (src? : Option Source) : ReadResourceOutcome :=
  match findConnection cs serverName src? with
  | none => ReadResourceOutcome.noConnection
  | some conn =>
    if conn.server.disabled.getD false then ReadResourceOutcome.serverDisabled
    else ReadResourceOutcome.transportRequest

/-! ### UI ordering -/

/-- Number.MAX_SAFE_INTEGER, the order index of a name absent from the
recorded configuration order. -/
def maxSafeInteger : Nat := 2 ^ 53 - 1

/-- Index of a name in a configuration order (indexOf with the absent case
mapped to MAX_SAFE_INTEGER). -/
def orderIndexAux (name : String) (i : Nat) : List String → Nat
  | [] => maxSafeInteger
  | x :: rest => if x = name then i else orderIndexAux name (i + 1) rest

def orderIndex (order : List String) (name : String) : Nat :=
  orderIndexAux name 0 order

/-- Source priority used by sortConnectionsByPriority, applied after the
unset source has been defaulted to global: project 0, global 1, memory 2. -/
def sourcePriority : Source → Nat
  | .project => 0
  | .global => 1
  | .memory => 2

/-- String comparator standing in for localeCompare. -/
def strCompare (a b : String) : Int :=
  if a < b then -1 else if b < a then 1 else 0

/-- McpHub.compareServersByOrder: within one source, order indices first
(config order), ties and absent names alphabetically; memory servers purely
alphabetically. -/
def compareServersByOrder (nameA nameB : String) (source : Source)
    (globalOrder projectOrder : List String) : Int :=
  match source with
  | .project =>
    let iA := orderIndex projectOrder nameA
    let iB := orderIndex projectOrder nameB
    if iA ≠ iB then (iA : Int) - (iB : Int) else strCompare nameA nameB
  | .global =>
    let iA := orderIndex globalOrder nameA
    let iB := orderIndex globalOrder nameB
    if iA ≠ iB then (iA : Int) - (iB : Int) else strCompare nameA nameB
  | .memory => strCompare nameA nameB

/-- The comparator passed to Array.prototype.sort by
McpHub.sortConnectionsByPriority: an unset source defaults to global, source
priorities decide first, then the per-source order comparison. -/
def connCompare (globalOrder projectOrder : List String)
    (a b : McpConnection) : Int :=
  let aS := a.server.source.getD Source.global
  let bS := b.server.source.getD Source.global
  if sourcePriority aS ≠ sourcePriority bS then
    (sourcePriority aS : Int) - (sourcePriority bS : Int)
  else compareServersByOrder a.server.name b.server.name aS globalOrder projectOrder

/-- Insertion relative to the comparator (the JS sort is modelled as any
comparator-consistent sort; none of the claims depend on the particular
algorithm). -/
def insertByCompare (cmp : McpConnection → McpConnection → Int)
    (a : McpConnection) : List McpConnection → List McpConnection
  | [] => [a]
  | b :: rest =>
    if cmp a b ≤ 0 then a :: b :: rest else b :: insertByCompare cmp a rest

/-- McpHub.sortConnectionsByPriority. -/
def sortConnectionsByPriority (cs : List McpConnection)
    (globalOrder projectOrder : List String) : List McpConnection :=
  cs.foldr (insertByCompare (connCompare globalOrder projectOrder)) []

/-- Helper: the same connection with its source field replaced. -/
def withSource (c : McpConnection) (s? : Option Source) : McpConnection :=
  ⟨{ c.server with source := s? }⟩

/-- Concrete connection with an empty error history, used by witnesses. -/
def emptyConn : McpConnection :=
  ⟨{ name := "srv", config := {}, status := Status.connected }⟩

/-- Concrete batch of 150 error messages. -/
def msgs150 : List (String × Nat) :=
  (List.range 150).map fun i => (toString i, i)

/-- Concrete connection constructor used by witnesses. -/
def connOf (name : String) (src? : Option Source) : McpConnection :=
  ⟨{ name := name, config := {}, status := Status.connected, source := src? }⟩

/-- Concrete connection list with the name x in all three scopes. -/
def csThreeScopes : List McpConnection :=
  [connOf "x" (some Source.memory), connOf "x" (some Source.global),
   connOf "x" (some Source.project)]

/-- Sample external environment used by concrete witnesses. -/
def sampleExt : Ext :=
  { subst := id, urlOk := fun _ => true, defaultCwd := "/ws",
    workspacePath := "/ws", connectOk := fun _ => true,
    instructions := fun _ => none, connectErrMsg := fun _ => "connect failed",
    now := 0, toolDescriptors := fun _ => some [],
    resourcesList := fun _ => some [], templatesList := fun _ => some [],
    diskAlwaysAllow := fun _ _ => [], diskDisabledTools := fun _ _ => [],
    gatewayEnabled := true, gatewayConfig := some ("http://gw", "key"),
    serverList := some [("srv1", "srv1")], fileCoolOk := true }

/-- Concrete disabled connection. -/
def disabledConn : McpConnection :=
  ⟨{ name := "d", config := {}, status := Status.connected,
     disabled := some true, source := some Source.global }⟩

/-- Concrete hub with a memory connection and a project connection. -/
def hubTwoScopes : HubState :=
  { connections := [connOf "mem" (some Source.memory),
      connOf "proj" (some Source.project)] }

/-- Environment in which every capability-discovery request fails. -/
def failingDiscoveryExt : Ext :=
  { sampleExt with
    toolDescriptors := fun _ => none,
    resourcesList := fun _ => none,
    templatesList := fun _ => none }

/-- Concrete memory connection carrying two named tools. -/
def memToolsConnSample : McpConnection :=
  ⟨{ name := "file-cool", config := {}, status := Status.connected,
     source := some Source.memory,
     tools := some [{ name := "alpha" }, { name := "beta" }] }⟩

/-- Concrete hub holding only the memory connection with two tools. -/
def memToolsHub : HubState :=
  { connections := [memToolsConnSample] }

/-! ## Supporting lemmas -/

theorem connectToServer_pos (ext : Ext) (h : HubState) (name : String)
    (vc : ValidatedConfig) (src : Source) (hok : ext.connectOk name = true) :
    connectToServer ext h name vc src = connectSuccess ext h name vc src := by
  simp [connectToServer, hok]

theorem connectToServer_neg (ext : Ext) (h : HubState) (name : String)
    (vc : ValidatedConfig) (src : Source) (hok : ext.connectOk name = false) :
    connectToServer ext h name vc src = connectFailure ext h name vc src := by
  simp [connectToServer, hok]


theorem lastN_of_length_le {α : Type} {n : Nat} {l : List α}
    (h : l.length ≤ n) : lastN n l = l := by
  simp [lastN, Nat.sub_eq_zero_of_le h]

theorem lastN_drop_one {α : Type} (z w : List α) (hz : z.length = 101) :
    lastN 100 (z.drop 1 ++ w) = lastN 100 (z ++ w) := by
  have h1 : z.drop 1 ++ w = (z ++ w).drop 1 :=
    (List.drop_append_of_le_length (by omega)).symm
  rw [h1]
  simp only [lastN, List.drop_drop, List.length_drop, List.length_append]
  congr 1
  omega

/-- The history update of appendErrorMessage is slice(-100) of the pushed
history whenever the incoming history respects the bound. -/
theorem appendErrorMessage_history (c : McpConnection) (msg : String)
    (ts : Nat) (lvl : Level) :
    (appendErrorMessage c msg ts lvl).server.errorHistory
      = lastN 100 (c.server.errorHistory ++
          [{ message := truncateError msg, timestamp := ts, level := lvl }]) := by
  show (if (c.server.errorHistory ++
      [({ message := truncateError msg, timestamp := ts, level := lvl } : ErrorEntry)]).length > 100
    then lastN 100 (c.server.errorHistory ++
      [{ message := truncateError msg, timestamp := ts, level := lvl }])
    else c.server.errorHistory ++
      [{ message := truncateError msg, timestamp := ts, level := lvl }]) = _
  split
  · rfl
  · next hnot => exact (lastN_of_length_le (Nat.le_of_not_lt hnot)).symm

theorem appendErrorMessage_history_le (c : McpConnection) (msg : String)
    (ts : Nat) (lvl : Level) :
    (appendErrorMessage c msg ts lvl).server.errorHistory.length ≤ 100 := by
  rw [appendErrorMessage_history c msg ts lvl]
  simp only [lastN, List.length_drop, List.length_append]
  omega

/-- Folding appendErrorMessage keeps exactly the newest 100 entries of the
whole pushed stream. -/
theorem appendErrors_history : ∀ (msgs : List (String × Nat)) (c : McpConnection),
    c.server.errorHistory.length ≤ 100 →
    (appendErrors c msgs).server.errorHistory
      = lastN 100 (c.server.errorHistory ++ msgs.map fun m =>
          ({ message := truncateError m.1, timestamp := m.2,
             level := Level.error } : ErrorEntry))
  | [], c, h => by
    simpa [appendErrors] using (lastN_of_length_le h).symm
  | m :: rest, c, h => by
    have step := appendErrorMessage_history c m.1 m.2 Level.error
    have hle := appendErrorMessage_history_le c m.1 m.2 Level.error
    have ih := appendErrors_history rest (appendErrorMessage c m.1 m.2 Level.error) hle
    simp only [appendErrors, List.foldl_cons] at ih ⊢
    rw [ih, step]
    set e : ErrorEntry :=
      { message := truncateError m.1, timestamp := m.2, level := Level.error } with he
    set z := c.server.errorHistory ++ [e] with hzdef
    by_cases hz : z.length = 101
    · have : lastN 100 z = z.drop 1 := by
        simp [lastN, hz]
      rw [this, lastN_drop_one z _ hz, hzdef, List.append_assoc]
      simp
    · have hzle : z.length ≤ 100 := by
        simp only [hzdef, List.length_append, List.length_singleton] at hz ⊢
        omega
      rw [lastN_of_length_le hzle, hzdef, List.append_assoc]
      simp

/-! ## Claim C2 -/

/-- C2: appendErrorMessage stores a message unchanged when it has at most
1000 characters and otherwise stores its first 1000 characters followed by
the truncation marker; it overwrites the current error display with the
possibly-truncated message; it keeps the error history bounded at 100
entries; and appending 150 errors to a connection with an empty history
leaves exactly the newest 100, the oldest 50 evicted. -/
theorem appendErrorMessage_bounded_truncation :
    (∀ (c : McpConnection) (msg : String) (ts : Nat) (lvl : Level),
      (msg.length ≤ 1000 → truncateError msg = msg)
      ∧ (1000 < msg.length →
          truncateError msg = msg.take 1000 ++ "...(error message truncated)")
      ∧ (appendErrorMessage c msg ts lvl).server.error = some (truncateError msg)
      ∧ (c.server.errorHistory.length ≤ 100 →
          (appendErrorMessage c msg ts lvl).server.errorHistory.length ≤ 100))
    ∧ (∀ (c : McpConnection) (msgs : List (String × Nat)),
        c.server.errorHistory = [] → msgs.length = 150 →
        (appendErrors c msgs).server.errorHistory
          = (msgs.map fun m =>
              ({ message := truncateError m.1, timestamp := m.2,
                 level := Level.error } : ErrorEntry)).drop 50) := by
  constructor
  · intro c msg ts lvl
    refine ⟨fun hle => ?_, fun hgt => ?_, ?_, fun hb => ?_⟩
    · simp [truncateError, Nat.not_lt.mpr hle]
    · simp [truncateError, hgt]
    · simp [appendErrorMessage]
    · exact appendErrorMessage_history_le c msg ts lvl
  · intro c msgs hempty hlen
    rw [appendErrors_history msgs c (by simp [hempty]), hempty]
    simp only [List.nil_append, lastN, List.length_map, hlen]

theorem appendErrorMessage_bounded_truncation_witness :
    (emptyConn.server.errorHistory = [] ∧ msgs150.length = 150)
    ∧ (appendErrors emptyConn msgs150).server.errorHistory
        = (msgs150.map fun m =>
            ({ message := truncateError m.1, timestamp := m.2,
               level := Level.error } : ErrorEntry)).drop 50 :=
  ⟨⟨rfl, by simp [msgs150]⟩,
   appendErrorMessage_bounded_truncation.2 emptyConn msgs150 rfl (by simp [msgs150])⟩

/-! ## Claim C3 -/

/-- C3: with a source argument, findConnection returns only a connection
matching both the name and that exact source.  Without one, resolution
follows the priority project, then global, then memory: a project match is
always preferred; with no project match a server resolved at the global step
has source global (or unset, which the lookup ranks with global); and only
when no match exists at either step is a memory connection returned. -/
theorem findConnection_scope_resolution (cs : List McpConnection) (n : String) :
    (∀ (s : Source) (c : McpConnection), findConnection cs n (some s) = some c →
      c.server.name = n ∧ c.server.source = some s)
    ∧ ((∃ c ∈ cs, c.server.name = n ∧ c.server.source = some Source.project) →
        ∃ c, findConnection cs n none = some c ∧ c.server.name = n ∧
          c.server.source = some Source.project)
    ∧ ((¬ ∃ c ∈ cs, c.server.name = n ∧ c.server.source = some Source.project) →
       (∃ c ∈ cs, c.server.name = n ∧ c.server.source = some Source.global) →
        ∃ c, findConnection cs n none = some c ∧ c.server.name = n ∧
          (c.server.source = some Source.global ∨ c.server.source = none))
    ∧ ((¬ ∃ c ∈ cs, c.server.name = n ∧ (c.server.source = some Source.project ∨
          c.server.source = some Source.global ∨ c.server.source = none)) →
       (∃ c ∈ cs, c.server.name = n ∧ c.server.source = some Source.memory) →
        ∃ c, findConnection cs n none = some c ∧ c.server.name = n ∧
          c.server.source = some Source.memory) := by
  refine ⟨?_, ?_, ?_, ?_⟩
  · intro s c h
    have := List.find?_some h
    simpa using this
  · rintro ⟨c, hc, hn, hs⟩
    have hsome : (cs.find? fun c => decide (c.server.name = n ∧
        c.server.source = some Source.project)).isSome :=
      List.find?_isSome.mpr ⟨c, hc, by simp [hn, hs]⟩
    obtain ⟨c', hc'⟩ := Option.isSome_iff_exists.mp hsome
    have hp := List.find?_some hc'
    simp only [decide_eq_true_eq] at hp
    exact ⟨c', by simp only [findConnection, hc'], hp.1, hp.2⟩
  · intro hnone hex
    obtain ⟨c, hc, hn, hs⟩ := hex
    have h1 : cs.find? (fun c => decide (c.server.name = n ∧
        c.server.source = some Source.project)) = none := by
      refine List.find?_eq_none.mpr fun x hx => ?_
      simp only [decide_eq_true_eq, not_and]
      intro hxn hxs
      exact hnone ⟨x, hx, hxn, hxs⟩
    have hsome : (cs.find? fun c => decide (c.server.name = n ∧
        (c.server.source = some Source.global ∨ c.server.source = none))).isSome :=
      List.find?_isSome.mpr ⟨c, hc, by simp [hn, hs]⟩
    obtain ⟨c', hc'⟩ := Option.isSome_iff_exists.mp hsome
    have hp := List.find?_some hc'
    simp only [decide_eq_true_eq] at hp
    exact ⟨c', by simp only [findConnection, h1, hc'], hp.1, hp.2⟩
  · intro hnone hex
    obtain ⟨c, hc, hn, hs⟩ := hex
    have h1 : cs.find? (fun c => decide (c.server.name = n ∧
        c.server.source = some Source.project)) = none := by
      refine List.find?_eq_none.mpr fun x hx => ?_
      simp only [decide_eq_true_eq, not_and]
      intro hxn hxs
      exact hnone ⟨x, hx, hxn, Or.inl hxs⟩
    have h2 : cs.find? (fun c => decide (c.server.name = n ∧
        (c.server.source = some Source.global ∨ c.server.source = none))) = none := by
      refine List.find?_eq_none.mpr fun x hx => ?_
      simp only [decide_eq_true_eq, not_and]
      intro hxn hxs
      exact hnone ⟨x, hx, hxn, Or.inr (by tauto)⟩
    have hsome : (cs.find? fun c => decide (c.server.name = n ∧
        c.server.source = some Source.memory)).isSome :=
      List.find?_isSome.mpr ⟨c, hc, by simp [hn, hs]⟩
    obtain ⟨c', hc'⟩ := Option.isSome_iff_exists.mp hsome
    have hp := List.find?_some hc'
    simp only [decide_eq_true_eq] at hp
    exact ⟨c', by simp only [findConnection, h1, h2, hc'], hp.1, hp.2⟩

theorem findConnection_scope_resolution_witness :
    (∃ c ∈ csThreeScopes, c.server.name = "x" ∧
      c.server.source = some Source.project)
    ∧ ∃ c, findConnection csThreeScopes "x" none = some c ∧
        c.server.name = "x" ∧ c.server.source = some Source.project :=
  ⟨by decide, (findConnection_scope_resolution csThreeScopes "x").2.1 (by decide)⟩

/-! ## Claim C4 -/

/-- C4: when the resolved connection is disabled, callTool and readResource
fail with the local disabled error; the transportRequest outcome, the only
one that issues a request on the transport client, is never produced. -/
theorem callTool_disabled_precondition (ext : Ext) (cs : List McpConnection)
    (serverName : String) (src? : Option Source) (conn : McpConnection)
    (hfind : findConnection cs serverName src? = some conn)
    (hdis : conn.server.disabled = some true) :
    callTool ext cs serverName src? = ToolCallOutcome.serverDisabled
    ∧ readResource cs serverName src? = ReadResourceOutcome.serverDisabled
    ∧ (∀ t, callTool ext cs serverName src? ≠ ToolCallOutcome.transportRequest t)
    ∧ readResource cs serverName src? ≠ ReadResourceOutcome.transportRequest := by
  have h1 : callTool ext cs serverName src? = ToolCallOutcome.serverDisabled := by
    simp [callTool, hfind, hdis]
  have h2 : readResource cs serverName src? = ReadResourceOutcome.serverDisabled := by
    simp [readResource, hfind, hdis]
  exact ⟨h1, h2, fun t => by simp [h1], by simp [h2]⟩

theorem callTool_disabled_precondition_witness :
    (findConnection [disabledConn] "d" (some Source.global) = some disabledConn
      ∧ disabledConn.server.disabled = some true)
    ∧ (callTool sampleExt [disabledConn] "d" (some Source.global)
        = ToolCallOutcome.serverDisabled
      ∧ readResource [disabledConn] "d" (some Source.global)
        = ReadResourceOutcome.serverDisabled
      ∧ (∀ t, callTool sampleExt [disabledConn] "d" (some Source.global)
          ≠ ToolCallOutcome.transportRequest t)
      ∧ readResource [disabledConn] "d" (some Source.global)
        ≠ ReadResourceOutcome.transportRequest) :=
  ⟨⟨by decide, rfl⟩,
   callTool_disabled_precondition sampleExt [disabledConn] "d"
     (some Source.global) disabledConn (by decide) rfl⟩

/-! ## Claim C10 -/

/-- C10: the three scope-inspecting operations named by the claim treat a
connection with an unset source as global: the scope-less lookup matches it
at the global step (that is, whenever no project match exists), the
reconciliation set for the global scope includes it, and the UI sort
comparator gives it exactly the comparison behavior of a global-source
connection. -/
theorem unset_source_treated_as_global (cs : List McpConnection) (n : String)
    (c : McpConnection) (go po : List String) (a b : McpConnection) :
    ((¬ ∃ c' ∈ cs, c'.server.name = n ∧ c'.server.source = some Source.project) →
      c ∈ cs → c.server.name = n → c.server.source = none →
      ∃ c', findConnection cs n none = some c' ∧ c'.server.name = n ∧
        (c'.server.source = some Source.global ∨ c'.server.source = none))
    ∧ (c ∈ cs → c.server.source = none →
      c ∈ reconciledConnections cs Source.global)
    ∧ (a.server.source = none →
      connCompare go po a b = connCompare go po (withSource a (some Source.global)) b
      ∧ connCompare go po b a = connCompare go po b (withSource a (some Source.global))) := by
  refine ⟨?_, ?_, ?_⟩
  · intro hnone hc hn hs
    have h1 : cs.find? (fun c => decide (c.server.name = n ∧
        c.server.source = some Source.project)) = none := by
      refine List.find?_eq_none.mpr fun x hx => ?_
      simp only [decide_eq_true_eq, not_and]
      intro hxn hxs
      exact hnone ⟨x, hx, hxn, hxs⟩
    have hsome : (cs.find? fun c => decide (c.server.name = n ∧
        (c.server.source = some Source.global ∨ c.server.source = none))).isSome :=
      List.find?_isSome.mpr ⟨c, hc, by simp [hn, hs]⟩
    obtain ⟨c', hc'⟩ := Option.isSome_iff_exists.mp hsome
    have hp := List.find?_some hc'
    simp only [decide_eq_true_eq] at hp
    exact ⟨c', by simp only [findConnection, h1, hc'], hp.1, hp.2⟩
  · intro hc hs
    refine List.mem_filter.mpr ⟨hc, ?_⟩
    simp [hs]
  · intro ha
    constructor
    · simp [connCompare, withSource, ha]
    · simp [connCompare, withSource, ha]

theorem unset_source_treated_as_global_witness :
    ((connOf "u" none) ∈ [connOf "u" none] ∧ (connOf "u" none).server.source = none)
    ∧ (∃ c', findConnection [connOf "u" none] "u" none = some c' ∧
        c'.server.name = "u" ∧ (c'.server.source = some Source.global ∨
          c'.server.source = none))
    ∧ (connOf "u" none) ∈ reconciledConnections [connOf "u" none] Source.global
    ∧ connCompare [] [] (connOf "u" none) (connOf "v" (some Source.project))
        = connCompare [] [] (withSource (connOf "u" none) (some Source.global))
            (connOf "v" (some Source.project)) := by
  have h := unset_source_treated_as_global [connOf "u" none] "u" (connOf "u" none)
    [] [] (connOf "u" none) (connOf "v" (some Source.project))
  exact ⟨⟨by decide, rfl⟩,
    h.1 (by decide) (by decide) rfl rfl,
    h.2.1 (by decide) rfl,
    (h.2.2 rfl).1⟩

/-! ## Claim C5 -/

theorem mem_deleteConnection_of_ne_src {cs : List McpConnection} {n : String}
    {s : Source} {c : McpConnection} (hc : c ∈ cs)
    (hne : c.server.source ≠ some s) : c ∈ (deleteConnection cs n (some s)).1 := by
  simp only [deleteConnection]
  refine List.mem_filter.mpr ⟨hc, ?_⟩
  simp only [delMatches, Bool.not_eq_true', decide_eq_false_iff_not]
  tauto

theorem mem_connectToServer_of_ne_src (ext : Ext) (h : HubState) (name : String)
    (vc : ValidatedConfig) (src : Source) {c : McpConnection}
    (hc : c ∈ h.connections) (hne : c.server.source ≠ some src) :
    c ∈ (connectToServer ext h name vc src).1.connections := by
  have hmem : c ∈ (deleteConnection h.connections name (some src)).1 :=
    mem_deleteConnection_of_ne_src hc hne
  by_cases hok : ext.connectOk name
  · simp only [connectToServer, hok, if_true]
    exact List.mem_append.mpr (Or.inl hmem)
  · simp only [connectToServer, hok, if_false]
    exact List.mem_append.mpr (Or.inl hmem)

theorem mem_deleteRemoved_of_ne_src (src : Source) (newNames : List String) :
    ∀ (names : List String) (cs : List McpConnection) (log : List HubAction)
      (c : McpConnection), c ∈ cs → c.server.source ≠ some src →
      c ∈ (deleteRemoved src newNames names (cs, log)).1
  | [], cs, log, c, hc, _ => hc
  | n :: rest, cs, log, c, hc, hne => by
    simp only [deleteRemoved]
    split
    · exact mem_deleteRemoved_of_ne_src src newNames rest cs log c hc hne
    · exact mem_deleteRemoved_of_ne_src src newNames rest _ _ c
        (mem_deleteConnection_of_ne_src hc hne) hne

theorem mem_processEntries_of_ne_src (ext : Ext) (src : Source) :
    ∀ (l : List (String × RawConfig)) (h : HubState) (log : List HubAction)
      (c : McpConnection), c ∈ h.connections → c.server.source ≠ some src →
      c ∈ (processEntries ext src l (h, log)).1.connections
  | [], h, log, c, hc, _ => hc
  | (n, cfg) :: rest, h, log, c, hc, hne => by
    simp only [processEntries]
    cases hval : validateServerConfig ext.urlOk ext.defaultCwd cfg with
    | error e =>
      exact mem_processEntries_of_ne_src ext src rest h log c hc hne
    | ok vc =>
      cases hcur : findConnection h.connections n (some src) with
      | none =>
        exact mem_processEntries_of_ne_src ext src rest _ _ c
          (mem_connectToServer_of_ne_src ext h n vc src hc hne) hne
      | some c0 =>
        by_cases hcfg : c0.server.config = cfg
        · simp only [hcfg, if_true]
          exact mem_processEntries_of_ne_src ext src rest h log c hc hne
        · simp only [hcfg, if_false]
          exact mem_processEntries_of_ne_src ext src rest _ _ c
            (mem_connectToServer_of_ne_src ext _ n vc src
              (mem_deleteConnection_of_ne_src hc hne) hne) hne

/-- C5: updateServerConnections never deletes or modifies a connection of a
different scope: every connection whose source differs from the reconciled
source — in particular every memory connection when a global or project
scope is reconciled, and connections with an unset source likewise — is
still present, unchanged, in the resulting connection list. -/
theorem updateServerConnections_scope_isolation (ext : Ext) (h : HubState)
    (newServers : List (String × RawConfig)) (src : Source) (c : McpConnection)
    (hc : c ∈ h.connections) (hne : c.server.source ≠ some src) :
    c ∈ (updateServerConnections ext h newServers src).1.connections := by
  simp only [updateServerConnections]
  exact mem_processEntries_of_ne_src ext src newServers _ _ c
    (mem_deleteRemoved_of_ne_src src _ _ h.connections [] c hc hne) hne

theorem updateServerConnections_scope_isolation_witness :
    ((connOf "mem" (some Source.memory)) ∈ hubTwoScopes.connections
      ∧ (connOf "mem" (some Source.memory)).server.source ≠ some Source.global)
    ∧ (connOf "mem" (some Source.memory)) ∈
        (updateServerConnections sampleExt hubTwoScopes
          [("a", { command := some "x" })] Source.global).1.connections :=
  ⟨⟨by decide, by decide⟩,
   updateServerConnections_scope_isolation sampleExt hubTwoScopes
     [("a", { command := some "x" })] Source.global
     (connOf "mem" (some Source.memory)) (by decide) (by decide)⟩

/-! ## Claim C8 -/

theorem fetchToolsList_of_failed_request (ext : Ext) (h : HubState) (n : String)
    (src? : Option Source) (htools : ext.toolDescriptors n = none) :
    fetchToolsList ext h n src? = [] := by
  simp only [fetchToolsList]
  cases findConnection h.connections n src? <;> simp [htools]

theorem fetchResourcesList_of_failed_request (ext : Ext) (h : HubState) (n : String)
    (src? : Option Source) (hres : ext.resourcesList n = none) :
    fetchResourcesList ext h n src? = [] := by
  simp only [fetchResourcesList]
  cases findConnection h.connections n src? <;> simp [hres]

theorem fetchResourceTemplatesList_of_failed_request (ext : Ext) (h : HubState)
    (n : String) (src? : Option Source) (htpl : ext.templatesList n = none) :
    fetchResourceTemplatesList ext h n src? = [] := by
  simp only [fetchResourceTemplatesList]
  cases findConnection h.connections n src? <;> simp [htpl]

/-- After deleteConnection for an exact name and source, no connection of
that name and source remains. -/
theorem findConnection_deleteConnection_self (cs : List McpConnection)
    (n : String) (s : Source) :
    findConnection (deleteConnection cs n (some s)).1 n (some s) = none := by
  simp only [findConnection, deleteConnection]
  refine List.find?_eq_none.mpr fun x hx => ?_
  have := (List.mem_filter.mp hx).2
  simp only [delMatches, Bool.not_eq_true', decide_eq_false_iff_not] at this
  simpa using this

/-- Resolving the just-pushed connection after a delete-then-push. -/
theorem findConnection_after_delete_push (cs : List McpConnection) (n : String)
    (s : Source) (x : McpConnection) (hxn : x.server.name = n)
    (hxs : x.server.source = some s) :
    findConnection ((deleteConnection cs n (some s)).1 ++ [x]) n (some s) = some x := by
  simp only [findConnection, List.find?_append]
  have h1 := findConnection_deleteConnection_self cs n s
  simp only [findConnection] at h1
  rw [h1]
  simp [hxn, hxs]

/-- C8: a successful connect whose capability-discovery requests all fail
leaves the connection connected with empty tool, resource and template
lists, an empty error history and a cleared error display — the discovery
failure is swallowed rather than surfaced as a connection error, and the
status does not revert to disconnected. -/
theorem capability_discovery_failure_nonfatal (ext : Ext) (h : HubState)
    (name : String) (vc : ValidatedConfig) (src : Source)
    (hok : ext.connectOk name = true)
    (htools : ext.toolDescriptors name = none)
    (hres : ext.resourcesList name = none)
    (htpl : ext.templatesList name = none) :
    ∃ conn, findConnection (connectToServer ext h name vc src).1.connections
        name (some src) = some conn
      ∧ conn.server.status = Status.connected
      ∧ conn.server.tools = some []
      ∧ conn.server.resources = some []
      ∧ conn.server.resourceTemplates = some []
      ∧ conn.server.errorHistory = []
      ∧ conn.server.error = some "" := by
  rw [connectToServer_pos ext h name vc src hok]
  simp only [connectSuccess,
    fetchToolsList_of_failed_request ext _ name (some src) htools,
    fetchResourcesList_of_failed_request ext _ name (some src) hres,
    fetchResourceTemplatesList_of_failed_request ext _ name (some src) htpl]
  exact ⟨_, findConnection_after_delete_push h.connections name src _ rfl rfl,
    rfl, rfl, rfl, rfl, rfl, rfl⟩

theorem capability_discovery_failure_nonfatal_witness :
    (failingDiscoveryExt.connectOk "s" = true
      ∧ failingDiscoveryExt.toolDescriptors "s" = none)
    ∧ ∃ conn, findConnection (connectToServer failingDiscoveryExt {} "s"
          { type := "stdio", command := some "x" } Source.global).1.connections
        "s" (some Source.global) = some conn
      ∧ conn.server.status = Status.connected
      ∧ conn.server.tools = some []
      ∧ conn.server.resources = some []
      ∧ conn.server.resourceTemplates = some []
      ∧ conn.server.errorHistory = []
      ∧ conn.server.error = some "" :=
  ⟨⟨rfl, rfl⟩,
   capability_discovery_failure_nonfatal failingDiscoveryExt {} "s"
     { type := "stdio", command := some "x" } Source.global rfl rfl rfl rfl⟩

/-! ## Reconciliation lemmas shared by C1 and C6 -/

theorem find?_filter_compat {α : Type} (p q : α → Bool) (l : List α)
    (h : ∀ a, p a = true → q a = true) :
    (l.filter q).find? p = l.find? p := by
  induction l with
  | nil => rfl
  | cons a rest ih =>
    cases hq : q a with
    | true =>
      simp only [List.filter_cons, hq, if_true, List.find?_cons]
      cases hp : p a <;> simp [ih]
    | false =>
      have hp : p a = false := by
        cases hpa : p a
        · rfl
        · rw [h a hpa] at hq
          cases hq
      simp [List.filter_cons, hq, List.find?_cons, hp, ih]

/-- Projections of appendErrorMessage other than the error fields are
untouched. -/
theorem appendErrorMessage_name (c : McpConnection) (msg : String) (ts : Nat)
    (lvl : Level) : (appendErrorMessage c msg ts lvl).server.name = c.server.name := rfl

theorem appendErrorMessage_source (c : McpConnection) (msg : String) (ts : Nat)
    (lvl : Level) :
    (appendErrorMessage c msg ts lvl).server.source = c.server.source := rfl

theorem appendErrorMessage_config (c : McpConnection) (msg : String) (ts : Nat)
    (lvl : Level) :
    (appendErrorMessage c msg ts lvl).server.config = c.server.config := rfl

theorem appendErrorMessage_disabled (c : McpConnection) (msg : String) (ts : Nat)
    (lvl : Level) :
    (appendErrorMessage c msg ts lvl).server.disabled = c.server.disabled := rfl

/-- Deleting one name does not affect resolution of a different name within
the same source. -/
theorem findConnection_deleteConnection_ne (cs : List McpConnection)
    (name n' : String) (s : Source) (hne : n' ≠ name) :
    findConnection (deleteConnection cs name (some s)).1 n' (some s)
      = findConnection cs n' (some s) := by
  simp only [findConnection, deleteConnection]
  apply find?_filter_compat
  intro a hp
  simp only [decide_eq_true_eq] at hp
  simp [delMatches, hp.1, hne]

/-- Appending a connection of a different name does not affect resolution
of the original name within a source. -/
theorem findConnection_append_single_ne (cs : List McpConnection)
    (x : McpConnection) (n' : String) (s : Source)
    (hne : x.server.name ≠ n') :
    findConnection (cs ++ [x]) n' (some s) = findConnection cs n' (some s) := by
  simp only [findConnection, List.find?_append]
  have hx : List.find? (fun c => decide (c.server.name = n' ∧
      c.server.source = some s)) [x] = none := by
    simp [List.find?_cons, hne]
  rw [hx, Option.or_none]

theorem findConnection_connectToServer_ne (ext : Ext) (h : HubState)
    (name : String) (vc : ValidatedConfig) (src : Source) (n' : String)
    (hne : n' ≠ name) :
    findConnection (connectToServer ext h name vc src).1.connections n' (some src)
      = findConnection h.connections n' (some src) := by
  have hdel := findConnection_deleteConnection_ne h.connections name n' src hne
  cases hok : ext.connectOk name with
  | true =>
    rw [connectToServer_pos ext h name vc src hok]
    simp only [connectSuccess]
    rw [findConnection_append_single_ne _ _ _ _ (Ne.symm hne)]
    exact hdel
  | false =>
    rw [connectToServer_neg ext h name vc src hok]
    simp only [connectFailure]
    rw [findConnection_append_single_ne _ _ _ _ (Ne.symm hne)]
    exact hdel

/-- Resolving the name just passed to connectToServer yields the freshly
pushed connection, which carries the serialized injected config and, on a
successful connect, the connected status. -/
theorem findConnection_connectToServer_self (ext : Ext) (h : HubState)
    (name : String) (vc : ValidatedConfig) (src : Source) :
    ∃ conn, findConnection (connectToServer ext h name vc src).1.connections
        name (some src) = some conn
      ∧ conn.server.name = name ∧ conn.server.source = some src
      ∧ conn.server.config = (injectConfig ext.subst vc).toRaw
      ∧ conn.server.disabled = (injectConfig ext.subst vc).disabled
      ∧ (ext.connectOk name = true → conn.server.status = Status.connected) := by
  by_cases hok : ext.connectOk name
  · simp only [connectToServer, hok, if_true]
    exact ⟨_, findConnection_after_delete_push h.connections name src _ rfl rfl,
      rfl, rfl, rfl, rfl, fun _ => rfl⟩
  · simp only [connectToServer, hok, if_false]
    refine ⟨_, findConnection_after_delete_push h.connections name src _
      (appendErrorMessage_name _ _ _ _) (appendErrorMessage_source _ _ _ _),
      appendErrorMessage_name _ _ _ _, appendErrorMessage_source _ _ _ _,
      appendErrorMessage_config _ _ _ _, appendErrorMessage_disabled _ _ _ _,
      fun hc => absurd hc (by simp [hok])⟩

theorem mem_deleteRemoved (src : Source) (newNames : List String) :
    ∀ (names : List String) (cs : List McpConnection) (log : List HubAction)
      (c : McpConnection), c ∈ (deleteRemoved src newNames names (cs, log)).1 →
      c ∈ cs
  | [], cs, log, c, hc => hc
  | n :: rest, cs, log, c, hc => by
    simp only [deleteRemoved] at hc
    split at hc
    · exact mem_deleteRemoved src newNames rest cs log c hc
    · have := mem_deleteRemoved src newNames rest _ _ c hc
      exact (List.mem_filter.mp this).1

/-- Processing a batch of entries does not change the resolution of a name
not occurring in the batch. -/
theorem processEntries_preserve_find (ext : Ext) (src : Source) :
    ∀ (l : List (String × RawConfig)) (h : HubState) (log : List HubAction)
      (n : String), n ∉ l.map Prod.fst →
      findConnection (processEntries ext src l (h, log)).1.connections n (some src)
        = findConnection h.connections n (some src)
  | [], h, log, n, _ => rfl
  | (m, cfg) :: rest, h, log, n, hn => by
    have hne : n ≠ m := fun he => hn (by simp [he])
    have hrest : n ∉ rest.map Prod.fst := fun hr => hn (by simp [hr])
    simp only [processEntries]
    cases hval : validateServerConfig ext.urlOk ext.defaultCwd cfg with
    | error e =>
      simp only [hval]
      exact processEntries_preserve_find ext src rest h log n hrest
    | ok vc =>
      simp only [hval]
      cases hcur : findConnection h.connections m (some src) with
      | none =>
        simp only [hcur]
        rw [processEntries_preserve_find ext src rest _ _ n hrest]
        exact findConnection_connectToServer_ne ext h m vc src n hne
      | some c0 =>
        simp only [hcur]
        by_cases hcfg : c0.server.config = cfg
        · rw [if_pos hcfg]
          exact processEntries_preserve_find ext src rest h log n hrest
        · rw [if_neg hcfg]
          rw [processEntries_preserve_find ext src rest _ _ n hrest]
          rw [findConnection_connectToServer_ne ext _ m vc src n hne]
          exact findConnection_deleteConnection_ne h.connections m n src hne

/-- A config carrying both a command and a url is rejected by the very first
pre-check of validateServerConfig with the mixed-fields error. -/
theorem validateServerConfig_mixed (urlOk : String → Bool) (defaultCwd : String)
    (c : RawConfig) (hcmd : c.command.isSome = true) (hurl : c.url.isSome = true) :
    validateServerConfig urlOk defaultCwd c = Except.error mixedFieldsErrorMessage := by
  simp [validateServerConfig, hcmd, hurl]

theorem create_not_mem_deleteConnection_log (cs : List McpConnection)
    (m : String) (s? : Option Source) (n : String) :
    HubAction.create n ∉ (deleteConnection cs m s?).2 := by
  simp only [deleteConnection]
  intro hmem
  obtain ⟨c, _, hc⟩ := List.mem_map.mp hmem
  cases hc

theorem create_mem_connectToServer (ext : Ext) (h : HubState) (m : String)
    (vc : ValidatedConfig) (src : Source) (n : String)
    (hmem : HubAction.create n ∈ (connectToServer ext h m vc src).2) : n = m := by
  cases hok : ext.connectOk m with
  | true =>
    rw [connectToServer_pos ext h m vc src hok] at hmem
    simp only [connectSuccess] at hmem
    rcases List.mem_append.mp hmem with h1 | h2
    · exact absurd h1 (create_not_mem_deleteConnection_log _ _ _ _)
    · cases List.mem_singleton.mp h2
      rfl
  | false =>
    rw [connectToServer_neg ext h m vc src hok] at hmem
    simp only [connectFailure] at hmem
    rcases List.mem_append.mp hmem with h1 | h2
    · exact absurd h1 (create_not_mem_deleteConnection_log _ _ _ _)
    · cases List.mem_singleton.mp h2
      rfl

theorem create_mem_deleteRemoved (src : Source) (newNames : List String) :
    ∀ (names : List String) (cs : List McpConnection) (log : List HubAction)
      (n : String),
      HubAction.create n ∈ (deleteRemoved src newNames names (cs, log)).2 →
      HubAction.create n ∈ log
  | [], cs, log, n, hmem => hmem
  | m :: rest, cs, log, n, hmem => by
    simp only [deleteRemoved] at hmem
    by_cases hb : newNames.contains m = true
    · rw [if_pos hb] at hmem
      exact create_mem_deleteRemoved src newNames rest cs log n hmem
    · rw [if_neg hb] at hmem
      have := create_mem_deleteRemoved src newNames rest _ _ n hmem
      rcases List.mem_append.mp this with h1 | h2
      · exact h1
      · exact absurd h2 (create_not_mem_deleteConnection_log _ _ _ _)

/-- Every create action logged by the update-or-add phase belongs to an
entry whose config validated successfully. -/
theorem create_mem_processEntries (ext : Ext) (src : Source) :
    ∀ (l : List (String × RawConfig)) (h : HubState) (log : List HubAction)
      (n : String),
      HubAction.create n ∈ (processEntries ext src l (h, log)).2 →
      HubAction.create n ∈ log ∨ ∃ p ∈ l, p.1 = n ∧
        ∃ vc, validateServerConfig ext.urlOk ext.defaultCwd p.2 = Except.ok vc
  | [], h, log, n, hmem => Or.inl hmem
  | (m, cfg) :: rest, h, log, n, hmem => by
    simp only [processEntries] at hmem
    cases hval : validateServerConfig ext.urlOk ext.defaultCwd cfg with
    | error e =>
      rw [hval] at hmem
      simp only at hmem
      rcases create_mem_processEntries ext src rest h log n hmem with h1 | ⟨p, hp, hpn, hpv⟩
      · exact Or.inl h1
      · exact Or.inr ⟨p, List.mem_cons_of_mem _ hp, hpn, hpv⟩
    | ok vc =>
      rw [hval] at hmem
      simp only at hmem
      cases hcur : findConnection h.connections m (some src) with
      | none =>
        rw [hcur] at hmem
        simp only at hmem
        rcases create_mem_processEntries ext src rest _ _ n hmem with h1 | ⟨p, hp, hpn, hpv⟩
        · rcases List.mem_append.mp h1 with h2 | h3
          · exact Or.inl h2
          · have := create_mem_connectToServer ext h m vc src n h3
            exact Or.inr ⟨(m, cfg), List.mem_cons_self _ _, this.symm, vc, hval⟩
        · exact Or.inr ⟨p, List.mem_cons_of_mem _ hp, hpn, hpv⟩
      | some c0 =>
        rw [hcur] at hmem
        simp only at hmem
        by_cases hcfg : c0.server.config = cfg
        · rw [if_pos hcfg] at hmem
          rcases create_mem_processEntries ext src rest h log n hmem with h1 | ⟨p, hp, hpn, hpv⟩
          · exact Or.inl h1
          · exact Or.inr ⟨p, List.mem_cons_of_mem _ hp, hpn, hpv⟩
        · rw [if_neg hcfg] at hmem
          rcases create_mem_processEntries ext src rest _ _ n hmem with h1 | ⟨p, hp, hpn, hpv⟩
          · rcases List.mem_append.mp h1 with h2 | h3
            · rcases List.mem_append.mp h2 with h4 | h5
              · exact Or.inl h4
              · exact absurd h5 (create_not_mem_deleteConnection_log _ _ _ _)
            · have := create_mem_connectToServer ext _ m vc src n h3
              exact Or.inr ⟨(m, cfg), List.mem_cons_self _ _, this.symm, vc, hval⟩
          · exact Or.inr ⟨p, List.mem_cons_of_mem _ hp, hpn, hpv⟩

/-- Two entries of a config map with pairwise distinct keys and the same key
are the same entry. -/
theorem key_unique {α : Type} :
    ∀ {l : List (String × α)}, (l.map Prod.fst).Nodup →
      ∀ {k : String} {a b : α}, (k, a) ∈ l → (k, b) ∈ l → a = b
  | [], _, _, _, _, ha, _ => absurd ha (List.not_mem_nil _)
  | (k', x) :: rest, hnodup, k, a, b, ha, hb => by
    have hnodup' : (k' :: rest.map Prod.fst).Nodup := by simpa using hnodup
    obtain ⟨hnotin, hrest⟩ := List.nodup_cons.mp hnodup'
    rcases List.mem_cons.mp ha with h1 | h1 <;>
      rcases List.mem_cons.mp hb with h2 | h2
    · rw [(Prod.mk.injEq _ _ _ _).mp h1 |>.2, (Prod.mk.injEq _ _ _ _).mp h2 |>.2]
    · exfalso
      have hk : k = k' := ((Prod.mk.injEq _ _ _ _).mp h1).1
      exact hnotin (hk ▸ List.mem_map.mpr ⟨(k, b), h2, rfl⟩)
    · exfalso
      have hk : k = k' := ((Prod.mk.injEq _ _ _ _).mp h2).1
      exact hnotin (hk ▸ List.mem_map.mpr ⟨(k, a), h1, rfl⟩)
    · exact key_unique hrest h1 h2

theorem findConnection_none_deleteRemoved (src : Source) (newNames : List String)
    (names : List String) (cs : List McpConnection) (log : List HubAction)
    (n : String) (hn : findConnection cs n (some src) = none) :
    findConnection (deleteRemoved src newNames names (cs, log)).1 n (some src) = none := by
  simp only [findConnection] at hn ⊢
  apply List.find?_eq_none.mpr
  intro x hx
  exact List.find?_eq_none.mp hn x (mem_deleteRemoved src newNames names cs log x hx)

/-- A fresh entry that validates and whose connect succeeds ends up as a
connected connection of the reconciled source, whatever the rest of the
batch does. -/
theorem processEntries_fresh_connected (ext : Ext) (src : Source) :
    ∀ (l : List (String × RawConfig)) (h : HubState) (log : List HubAction)
      (n : String) (c : RawConfig) (vc : ValidatedConfig),
      (l.map Prod.fst).Nodup → (n, c) ∈ l →
      validateServerConfig ext.urlOk ext.defaultCwd c = Except.ok vc →
      ext.connectOk n = true →
      findConnection h.connections n (some src) = none →
      ∃ conn, findConnection (processEntries ext src l (h, log)).1.connections
          n (some src) = some conn ∧ conn.server.status = Status.connected
        ∧ conn.server.name = n ∧ conn.server.source = some src
  | [], h, log, n, c, vc, _, hmem, _, _, _ => absurd hmem (List.not_mem_nil _)
  | (m, cfg) :: rest, h, log, n, c, vc, hnodup, hmem, hval, hok, hfresh => by
    have hnodup' : (m :: rest.map Prod.fst).Nodup := by simpa using hnodup
    obtain ⟨hm_notin, hrest_nodup⟩ := List.nodup_cons.mp hnodup'
    rcases List.mem_cons.mp hmem with heq | hmem_rest
    · -- the fresh entry is the head
      obtain ⟨hn, hc⟩ := (Prod.mk.injEq _ _ _ _).mp heq
      subst hn
      subst hc
      simp only [processEntries, hval, hfresh]
      rw [processEntries_preserve_find ext src rest _ _ n hm_notin]
      obtain ⟨conn, hfind, hname, hsrc, _, _, hstatus⟩ :=
        findConnection_connectToServer_self ext h n vc src
      exact ⟨conn, hfind, hstatus hok, hname, hsrc⟩
    · -- the fresh entry sits in the tail
      have hn_ne : n ≠ m := by
        intro he
        exact hm_notin (he ▸ List.mem_map.mpr ⟨(n, c), hmem_rest, rfl⟩)
      simp only [processEntries]
      cases hval2 : validateServerConfig ext.urlOk ext.defaultCwd cfg with
      | error e =>
        simp only [hval2]
        exact processEntries_fresh_connected ext src rest h log n c vc
          hrest_nodup hmem_rest hval hok hfresh
      | ok vc2 =>
        simp only [hval2]
        cases hcur : findConnection h.connections m (some src) with
        | none =>
          simp only [hcur]
          refine processEntries_fresh_connected ext src rest _ _ n c vc
            hrest_nodup hmem_rest hval hok ?_
          rw [findConnection_connectToServer_ne ext h m vc2 src n hn_ne]
          exact hfresh
        | some c0 =>
          simp only [hcur]
          by_cases hcfg : c0.server.config = cfg
          · rw [if_pos hcfg]
            exact processEntries_fresh_connected ext src rest h log n c vc
              hrest_nodup hmem_rest hval hok hfresh
          · rw [if_neg hcfg]
            refine processEntries_fresh_connected ext src rest _ _ n c vc
              hrest_nodup hmem_rest hval hok ?_
            rw [findConnection_connectToServer_ne ext _ m vc2 src n hn_ne]
            rw [findConnection_deleteConnection_ne h.connections m n src hn_ne]
            exact hfresh

/-- C6: a server entry mixing stdio and url fields is rejected by validation
with the mixed-fields error and skipped: no transport is ever constructed
for it (no create action carries its name), while every other valid entry of
the same batch — here a fresh entry whose connect succeeds — is still
created and connected. -/
theorem invalid_entry_skipped_others_connect (ext : Ext) (h : HubState)
    (newServers : List (String × RawConfig)) (src : Source)
    (nb : String) (cb : RawConfig) (n : String) (c : RawConfig)
    (vc : ValidatedConfig)
    (hnodup : (newServers.map Prod.fst).Nodup)
    (hbmem : (nb, cb) ∈ newServers)
    (hbcmd : cb.command.isSome = true) (hburl : cb.url.isSome = true)
    (hmem : (n, c) ∈ newServers) (hne : n ≠ nb)
    (hval : validateServerConfig ext.urlOk ext.defaultCwd c = Except.ok vc)
    (hok : ext.connectOk n = true)
    (hfresh : findConnection h.connections n (some src) = none) :
    validateServerConfig ext.urlOk ext.defaultCwd cb
        = Except.error mixedFieldsErrorMessage
    ∧ HubAction.create nb ∉ (updateServerConnections ext h newServers src).2
    ∧ ∃ conn, findConnection
          (updateServerConnections ext h newServers src).1.connections
          n (some src) = some conn
        ∧ conn.server.status = Status.connected
        ∧ conn.server.name = n ∧ conn.server.source = some src := by
  have hbad := validateServerConfig_mixed ext.urlOk ext.defaultCwd cb hbcmd hburl
  refine ⟨hbad, ?_, ?_⟩
  · intro hcreate
    simp only [updateServerConnections] at hcreate
    rcases create_mem_processEntries ext src newServers _ _ nb hcreate with h1 | ⟨p, hp, hpn, vcb, hpv⟩
    · have := create_mem_deleteRemoved src _ _ _ _ nb h1
      exact absurd this (List.not_mem_nil _)
    · obtain ⟨pk, pc⟩ := p
      simp only at hpn
      subst hpn
      have : pc = cb := key_unique hnodup hp hbmem
      subst this
      rw [hbad] at hpv
      cases hpv
  · simp only [updateServerConnections]
    exact processEntries_fresh_connected ext src newServers _ _ n c vc
      hnodup hmem hval hok
      (findConnection_none_deleteRemoved src _ _ _ _ n hfresh)

/-- Concrete batch with one mixed (invalid) entry a and one valid entry b. -/
def mixedBatch : List (String × RawConfig) :=
  [("a", { command := some "x", url := some "y" }), ("b", { command := some "y" })]

theorem invalid_entry_skipped_others_connect_witness :
    ((mixedBatch.map Prod.fst).Nodup
      ∧ findConnection ([] : List McpConnection) "b" (some Source.global) = none)
    ∧ validateServerConfig sampleExt.urlOk sampleExt.defaultCwd
        { command := some "x", url := some "y" }
        = Except.error mixedFieldsErrorMessage
    ∧ HubAction.create "a" ∉ (updateServerConnections sampleExt {} mixedBatch
        Source.global).2
    ∧ ∃ conn, findConnection (updateServerConnections sampleExt {} mixedBatch
          Source.global).1.connections "b" (some Source.global) = some conn
        ∧ conn.server.status = Status.connected
        ∧ conn.server.name = "b" ∧ conn.server.source = some Source.global :=
  ⟨⟨by decide, rfl⟩,
   invalid_entry_skipped_others_connect sampleExt {} mixedBatch Source.global
     "a" { command := some "x", url := some "y" } "b" { command := some "y" }
     { type := "stdio", command := some "y", cwd := some "/ws" }
     (by decide) (by decide) rfl rfl (by decide) (by decide) rfl rfl rfl⟩

/-! ## Claim C9 -/

theorem connectToServer_disabledStates (ext : Ext) (h : HubState) (name : String)
    (vc : ValidatedConfig) (src : Source) :
    (connectToServer ext h name vc src).1.memoryServerDisabledStates
      = h.memoryServerDisabledStates := by
  cases hok : ext.connectOk name with
  | true => rw [connectToServer_pos ext h name vc src hok]; rfl
  | false => rw [connectToServer_neg ext h name vc src hok]; rfl

theorem initGatewayList_disabledStates (ext : Ext) (u k : String) :
    ∀ (l : List (String × String)) (h : HubState) (log : List HubAction),
      (initGatewayList ext u k l (h, log)).1.memoryServerDisabledStates
        = h.memoryServerDisabledStates
  | [], h, log => rfl
  | (m, q) :: rest, h, log => by
    simp only [initGatewayList]
    by_cases hm : m = ""
    · rw [if_pos hm]
      exact initGatewayList_disabledStates ext u k rest h log
    · rw [if_neg hm]
      rw [initGatewayList_disabledStates ext u k rest _ _]
      exact connectToServer_disabledStates ext h m _ Source.memory

theorem initGatewayList_preserve_find (ext : Ext) (u k : String) :
    ∀ (l : List (String × String)) (h : HubState) (log : List HubAction)
      (n : String), (∀ q ∈ l, q.1 ≠ n) →
      findConnection (initGatewayList ext u k l (h, log)).1.connections
          n (some Source.memory)
        = findConnection h.connections n (some Source.memory)
  | [], h, log, n, _ => rfl
  | (m, q) :: rest, h, log, n, hkeep => by
    have hmn : m ≠ n := hkeep (m, q) (List.mem_cons_self _ _)
    have hrest : ∀ q ∈ rest, q.1 ≠ n :=
      fun q hq => hkeep q (List.mem_cons_of_mem _ hq)
    simp only [initGatewayList]
    by_cases hm : m = ""
    · rw [if_pos hm]
      exact initGatewayList_preserve_find ext u k rest h log n hrest
    · rw [if_neg hm]
      rw [initGatewayList_preserve_find ext u k rest _ _ n hrest]
      exact findConnection_connectToServer_ne ext h m _ Source.memory n (Ne.symm hmn)

/-- A gateway server with no saved disabled state is connected with
disabled = true. -/
theorem initGatewayList_find_disabled (ext : Ext) (u k : String) :
    ∀ (l : List (String × String)) (h : HubState) (log : List HubAction)
      (g p : String), (g, p) ∈ l → g ≠ "" →
      lookupA h.memoryServerDisabledStates g = none →
      ∃ conn, findConnection (initGatewayList ext u k l (h, log)).1.connections
          g (some Source.memory) = some conn ∧ conn.server.disabled = some true
  | [], h, log, g, p, hmem, _, _ => absurd hmem (List.not_mem_nil _)
  | (m, q) :: rest, h, log, g, p, hmem, hg0, hlook => by
    simp only [initGatewayList]
    by_cases hm : m = ""
    · rw [if_pos hm]
      rcases List.mem_cons.mp hmem with heq | hmem_rest
      · exact absurd (((Prod.mk.injEq _ _ _ _).mp heq).1.trans hm) hg0
      · exact initGatewayList_find_disabled ext u k rest h log g p hmem_rest hg0 hlook
    · rw [if_neg hm]
      by_cases hgm : m = g
      · subst hgm
        by_cases hrest : ∃ q2 ∈ rest, q2.1 = m
        · obtain ⟨q2, hq2, hq2n⟩ := hrest
          refine initGatewayList_find_disabled ext u k rest _ _ m q2.2 ?_ hg0 ?_
          · rw [← hq2n]
            exact hq2
          · rw [connectToServer_disabledStates]
            exact hlook
        · push_neg at hrest
          rw [initGatewayList_preserve_find ext u k rest _ _ m hrest]
          obtain ⟨conn, hfind, _, _, _, hdis, _⟩ :=
            findConnection_connectToServer_self ext h m
              (gatewayServerConfig u k q ((lookupA h.memoryServerDisabledStates m).getD true))
              Source.memory
          refine ⟨conn, hfind, ?_⟩
          rw [hdis, hlook]
          rfl
      · rcases List.mem_cons.mp hmem with heq | hmem_rest
        · exact absurd ((Prod.mk.injEq _ _ _ _).mp heq).1.symm hgm
        · refine initGatewayList_find_disabled ext u k rest _ _ g p hmem_rest hg0 ?_
          rw [connectToServer_disabledStates]
          exact hlook

/-- Resolving a just-pushed connection when nothing earlier matches. -/
theorem findConnection_append_single_self (cs : List McpConnection)
    (x : McpConnection) (n : String) (s : Source)
    (hnone : findConnection cs n (some s) = none)
    (hxn : x.server.name = n) (hxs : x.server.source = some s) :
    findConnection (cs ++ [x]) n (some s) = some x := by
  simp only [findConnection, List.find?_append] at hnone ⊢
  rw [hnone]
  simp [hxn, hxs]

/-- C9: with the gateway enabled and configured, a gateway-discovered server
with no saved disabled state comes up with disabled = true, while the
directly-constructed in-memory file-cool server with no saved state comes up
with disabled = false: the two in-process server kinds have opposite
disabled defaults. -/
theorem gateway_and_fileCool_disabled_defaults (ext : Ext) (h : HubState)
    (u k g p : String) (l : List (String × String))
    (hge : ext.gatewayEnabled = true)
    (hgc : ext.gatewayConfig = some (u, k))
    (hsl : ext.serverList = some l)
    (hfc : ext.fileCoolOk = true)
    (hg : (g, p) ∈ l) (hg0 : g ≠ "") (hgfc : g ≠ "file-cool")
    (hgl : lookupA h.memoryServerDisabledStates g = none)
    (hfl : lookupA h.memoryServerDisabledStates "file-cool" = none)
    (hfcl : ∀ q ∈ l, q.1 ≠ "file-cool")
    (hnofc : findConnection h.connections "file-cool" (some Source.memory) = none) :
    (∃ conn, findConnection (initializeInMemoryFileCoolServer ext h).1.connections
        g (some Source.memory) = some conn ∧ conn.server.disabled = some true)
    ∧ (∃ conn, findConnection (initializeInMemoryFileCoolServer ext h).1.connections
        "file-cool" (some Source.memory) = some conn
      ∧ conn.server.disabled = some false) := by
  simp only [initializeInMemoryFileCoolServer, hge, hfc, hgc,
    initializeStreamableHttpGatewayServers, hsl, not_true, if_false]
  constructor
  · obtain ⟨conn, hfind, hdis⟩ :=
      initGatewayList_find_disabled ext u k l h [] g p hg hg0 hgl
    refine ⟨conn, ?_, hdis⟩
    rw [findConnection_append_single_ne _ _ _ _ (by simp [Ne.symm hgfc])]
    exact hfind
  · have hnone : findConnection
        (initGatewayList ext u k l (h, [])).1.connections "file-cool"
        (some Source.memory) = none := by
      rw [initGatewayList_preserve_find ext u k l h [] "file-cool" hfcl]
      exact hnofc
    refine ⟨_, findConnection_append_single_self _ _ _ _ hnone rfl rfl, ?_⟩
    show some ((lookupA
      (initGatewayList ext u k l (h, [])).1.memoryServerDisabledStates
      "file-cool").getD false) = some false
    rw [initGatewayList_disabledStates ext u k l h [], hfl]
    rfl

theorem gateway_and_fileCool_disabled_defaults_witness :
    (sampleExt.gatewayEnabled = true ∧ sampleExt.serverList = some [("srv1", "srv1")]
      ∧ lookupA (HubState.memoryServerDisabledStates {}) "srv1" = none)
    ∧ (∃ conn, findConnection (initializeInMemoryFileCoolServer sampleExt {}).1.connections
        "srv1" (some Source.memory) = some conn ∧ conn.server.disabled = some true)
    ∧ (∃ conn, findConnection (initializeInMemoryFileCoolServer sampleExt {}).1.connections
        "file-cool" (some Source.memory) = some conn
      ∧ conn.server.disabled = some false) :=
  ⟨⟨rfl, rfl, rfl⟩,
   gateway_and_fileCool_disabled_defaults sampleExt {} "http://gw" "key" "srv1"
     "srv1" [("srv1", "srv1")] rfl rfl rfl rfl (by decide) (by decide) (by decide)
     rfl rfl (by decide) rfl⟩

/-! ## Claim C7 -/

theorem lookupA_setAssoc_self {α : Type} :
    ∀ (m : List (String × α)) (k : String) (v : α),
      lookupA (setAssoc m k v) k = some v
  | [], k, v => by simp [setAssoc, lookupA]
  | (k0, w) :: rest, k, v => by
    by_cases hk : k0 = k
    · simp [setAssoc, hk, lookupA]
    · simp only [setAssoc, if_neg hk, lookupA]
      exact lookupA_setAssoc_self rest k v

theorem lookupA_setAssoc_ne {α : Type} :
    ∀ (m : List (String × α)) (k : String) (v : α) (x : String), x ≠ k →
      lookupA (setAssoc m k v) x = lookupA m x
  | [], k, v, x, hx => by
    simp only [setAssoc, lookupA]
    rw [if_neg (fun he => hx he.symm)]
  | (k0, w) :: rest, k, v, x, hx => by
    by_cases hk : k0 = k
    · subst hk
      simp only [setAssoc, if_pos rfl, lookupA]
      rw [if_neg (fun he => hx he.symm), if_neg (fun he => hx he.symm)]
    · simp only [setAssoc, if_neg hk, lookupA]
      by_cases hkx : k0 = x
      · rw [if_pos hkx, if_pos hkx]
      · rw [if_neg hkx, if_neg hkx]
        exact lookupA_setAssoc_ne rest k v x hx

theorem saveStatesList_connections :
    ∀ (l : List McpConnection) (h : HubState),
      (saveStatesList l h).connections = h.connections
  | [], h => rfl
  | c :: rest, h => saveStatesList_connections rest _

theorem saveStatesList_lookup_not_mem :
    ∀ (l : List McpConnection) (h : HubState) (S : String),
      (∀ c ∈ l, c.server.name ≠ S) →
      lookupA (saveStatesList l h).memoryServerToolStates S
        = lookupA h.memoryServerToolStates S
  | [], h, S, _ => rfl
  | c :: rest, h, S, hk => by
    rw [saveStatesList, saveStatesList_lookup_not_mem rest _ S
      (fun c2 hc2 => hk c2 (List.mem_cons_of_mem _ hc2))]
    exact lookupA_setAssoc_ne _ _ _ S
      (fun he => hk c (List.mem_cons_self _ _) he.symm)

/-- With pairwise distinct names, the saved tool state of a connection in
the snapshot list is exactly the state read off its current tools. -/
theorem saveStatesList_lookup :
    ∀ (l : List McpConnection) (h : HubState) (S : String) (c : McpConnection),
      (l.map fun c => c.server.name).Nodup → c ∈ l → c.server.name = S →
      lookupA (saveStatesList l h).memoryServerToolStates S
        = some (toolStateOf (c.server.tools.getD []))
  | [], h, S, c, _, hc, _ => absurd hc (List.not_mem_nil _)
  | c0 :: rest, h, S, c, hnodup, hc, hcS => by
    have hnodup2 : (c0.server.name :: rest.map fun c => c.server.name).Nodup := by
      simpa using hnodup
    have hnotin := (List.nodup_cons.mp hnodup2).1
    have hrest := (List.nodup_cons.mp hnodup2).2
    by_cases h0 : c0.server.name = S
    · have hceq : c = c0 := by
        rcases List.mem_cons.mp hc with h1 | h1
        · exact h1
        · exact absurd (List.mem_map.mpr ⟨c, h1, hcS.trans h0.symm⟩) hnotin
      simp only [saveStatesList]
      rw [saveStatesList_lookup_not_mem rest _ S
        (fun c2 hc2 he => hnotin (List.mem_map.mpr ⟨c2, hc2, he.trans h0.symm⟩))]
      rw [hceq, ← h0]
      exact lookupA_setAssoc_self _ _ _
    · have hcrest : c ∈ rest := by
        rcases List.mem_cons.mp hc with h1 | h1
        · exact absurd (h1 ▸ hcS) h0
        · exact h1
      simp only [saveStatesList]
      exact saveStatesList_lookup rest _ S c hrest hcrest hcS

/-- After the restore pass, every memory connection with a saved state and a
defined tool list carries exactly the flags dictated by the saved state. -/
theorem restore_flags_correct (h : HubState) (S : String) (st : ToolStatePair)
    (hst : lookupA h.memoryServerToolStates S = some st) :
    ∀ c' ∈ (restoreMemoryServerToolStates h).connections,
      c'.server.source = some Source.memory → c'.server.name = S →
      ∀ ts', c'.server.tools = some ts' →
      ∀ t ∈ ts', t.alwaysAllow = st.alwaysAllow.contains t.name
        ∧ t.enabledForPrompt = !(st.disabledTools.contains t.name) := by
  intro c' hc' hsrc hname ts' hts' t ht
  simp only [restoreMemoryServerToolStates] at hc'
  obtain ⟨c0, hc0, hfc⟩ := List.mem_map.mp hc'
  by_cases hmem : c0.server.source = some Source.memory
  · rw [restoreConn, if_pos hmem] at hfc
    cases hlk : lookupA h.memoryServerToolStates c0.server.name with
    | none =>
      rw [hlk] at hfc
      cases htl : c0.server.tools with
      | none =>
        rw [htl] at hfc
        simp only at hfc
        rw [← hfc] at hname
        rw [hname] at hlk
        rw [hlk] at hst
        cases hst
      | some ts0 =>
        rw [htl] at hfc
        simp only at hfc
        rw [← hfc] at hname
        rw [hname] at hlk
        rw [hlk] at hst
        cases hst
    | some st2 =>
      rw [hlk] at hfc
      cases htl : c0.server.tools with
      | none =>
        rw [htl] at hfc
        simp only at hfc
        rw [← hfc] at hts'
        rw [htl] at hts'
        cases hts'
      | some ts0 =>
        rw [htl] at hfc
        simp only at hfc
        have hname0 : c0.server.name = S := by
          rw [← hfc] at hname
          exact hname
        rw [hname0, hst] at hlk
        cases hlk
        rw [← hfc] at hts'
        simp only at hts'
        cases hts'
        obtain ⟨t0, _, ht0⟩ := List.mem_map.mp ht
        rw [← ht0]
        exact ⟨rfl, rfl⟩
  · rw [restoreConn, if_neg hmem] at hfc
    rw [← hfc] at hsrc
    exact absurd hsrc hmem

theorem deleteConnectionsNamed_toolStates (src : Source) :
    ∀ (names : List String) (h : HubState) (log : List HubAction),
      (deleteConnectionsNamed src names (h, log)).1.memoryServerToolStates
        = h.memoryServerToolStates
  | [], h, log => rfl
  | n :: rest, h, log =>
    deleteConnectionsNamed_toolStates src rest _ _

theorem connectToServer_toolStates (ext : Ext) (h : HubState) (name : String)
    (vc : ValidatedConfig) (src : Source) :
    (connectToServer ext h name vc src).1.memoryServerToolStates
      = h.memoryServerToolStates := by
  cases hok : ext.connectOk name with
  | true => rw [connectToServer_pos ext h name vc src hok]; rfl
  | false => rw [connectToServer_neg ext h name vc src hok]; rfl

theorem initGatewayList_toolStates (ext : Ext) (u k : String) :
    ∀ (l : List (String × String)) (h : HubState) (log : List HubAction),
      (initGatewayList ext u k l (h, log)).1.memoryServerToolStates
        = h.memoryServerToolStates
  | [], h, log => rfl
  | (m, q) :: rest, h, log => by
    simp only [initGatewayList]
    by_cases hm : m = ""
    · rw [if_pos hm]
      exact initGatewayList_toolStates ext u k rest h log
    · rw [if_neg hm]
      rw [initGatewayList_toolStates ext u k rest _ _]
      exact connectToServer_toolStates ext h m _ Source.memory

theorem initializeInMemoryFileCoolServer_toolStates (ext : Ext) (h : HubState) :
    (initializeInMemoryFileCoolServer ext h).1.memoryServerToolStates
      = h.memoryServerToolStates := by
  by_cases hge : ext.gatewayEnabled = true
  · have hg : ∀ hh : HubState,
        (match ext.gatewayConfig with
          | some cfg => initializeStreamableHttpGatewayServers ext hh cfg.1 cfg.2
          | none => (hh, ([] : List HubAction))).1.memoryServerToolStates
          = hh.memoryServerToolStates := by
      intro hh
      cases hgc : ext.gatewayConfig with
      | none => rfl
      | some cfg =>
        simp only [initializeStreamableHttpGatewayServers]
        cases hsl : ext.serverList with
        | none => rfl
        | some l => exact initGatewayList_toolStates ext cfg.1 cfg.2 l hh []
    by_cases hfc : ext.fileCoolOk = true
    · simp only [initializeInMemoryFileCoolServer, hge, hfc, not_true,
        if_false, Bool.true_eq_false]
      exact hg h
    · have hfc' : ext.fileCoolOk = false := by
        cases hx : ext.fileCoolOk
        · rfl
        · exact absurd hx hfc
      simp only [initializeInMemoryFileCoolServer, hge, hfc', not_true,
        if_false, Bool.false_eq_true, not_false_iff, if_true]
      exact hg h
  · have hge' : ext.gatewayEnabled = false := by
      cases hx : ext.gatewayEnabled
      · rfl
      · exact absurd hx hge
    simp [initializeInMemoryFileCoolServer, hge']

/-- Resolving the toggled server name after an in-place update of the first
matching connection yields the updated connection (the source mutates the
object returned by findConnection, which is the first match). -/
theorem findConnection_updateFirstConnection (S : String) (src : Source)
    (f : McpConnection → McpConnection)
    (hf : ∀ c, (f c).server.name = c.server.name
      ∧ (f c).server.source = c.server.source) :
    ∀ cs : List McpConnection,
      findConnection (updateFirstConnection S src f cs) S (some src)
        = (findConnection cs S (some src)).map f
  | [] => rfl
  | c0 :: rest => by
    by_cases h0 : c0.server.name = S ∧ c0.server.source = some src
    · rw [updateFirstConnection, if_pos h0]
      simp only [findConnection, List.find?_cons]
      have hp0 : decide (c0.server.name = S ∧ c0.server.source = some src) = true := by
        simp [h0.1, h0.2]
      have hpf : decide ((f c0).server.name = S ∧ (f c0).server.source = some src)
          = true := by
        simp [(hf c0).1, (hf c0).2, h0.1, h0.2]
      rw [hp0, hpf]
      rfl
    · rw [updateFirstConnection, if_neg h0]
      simp only [findConnection, List.find?_cons]
      have hp0 : decide (c0.server.name = S ∧ c0.server.source = some src) = false := by
        simpa using h0
      rw [hp0]
      exact findConnection_updateFirstConnection S src f hf rest

/-- The in-place update of one connection preserves the name sequence. -/
theorem updateFirstConnection_map_name (S : String) (src : Source)
    (f : McpConnection → McpConnection)
    (hf : ∀ c, (f c).server.name = c.server.name) :
    ∀ cs : List McpConnection,
      (updateFirstConnection S src f cs).map (fun c => c.server.name)
        = cs.map fun c => c.server.name
  | [] => rfl
  | c0 :: rest => by
    by_cases h0 : c0.server.name = S ∧ c0.server.source = some src
    · rw [updateFirstConnection, if_pos h0]
      simp only [List.map_cons, hf c0]
    · rw [updateFirstConnection, if_neg h0]
      simp only [List.map_cons,
        updateFirstConnection_map_name S src f hf rest]

/-- Filtering the memory connections commutes with the in-place update of a
memory connection. -/
theorem filter_memory_updateFirstConnection (S : String)
    (f : McpConnection → McpConnection)
    (hf : ∀ c, (f c).server.source = c.server.source) :
    ∀ cs : List McpConnection,
      (updateFirstConnection S Source.memory f cs).filter
          (fun c => decide (c.server.source = some Source.memory))
        = updateFirstConnection S Source.memory f
            (cs.filter fun c => decide (c.server.source = some Source.memory))
  | [] => rfl
  | c0 :: rest => by
    by_cases h0 : c0.server.name = S ∧ c0.server.source = some Source.memory
    · rw [updateFirstConnection, if_pos h0]
      have hm : decide (c0.server.source = some Source.memory) = true := by
        simp [h0.2]
      have hmf : decide ((f c0).server.source = some Source.memory) = true := by
        simp [hf c0, h0.2]
      simp only [List.filter_cons, hm, hmf, if_true]
      rw [updateFirstConnection, if_pos h0]
    · rw [updateFirstConnection, if_neg h0]
      by_cases hm : c0.server.source = some Source.memory
      · have hmt : decide (c0.server.source = some Source.memory) = true := by
          simp [hm]
        simp only [List.filter_cons, hmt, if_true]
        rw [updateFirstConnection, if_neg h0]
        rw [filter_memory_updateFirstConnection S f hf rest]
      · have hmt : decide (c0.server.source = some Source.memory) = false := by
          simp [hm]
        simp only [List.filter_cons, hmt]
        rw [filter_memory_updateFirstConnection S f hf rest]
        rfl

/-- In-place update of one tool preserves the name sequence. -/
theorem updateFirstTool_map_name (T : String) (f : McpTool → McpTool)
    (hf : ∀ t, (f t).name = t.name) :
    ∀ ts : List McpTool,
      (updateFirstTool T f ts).map (fun t => t.name) = ts.map fun t => t.name
  | [] => rfl
  | t0 :: rest => by
    by_cases h0 : t0.name = T
    · rw [updateFirstTool, if_pos h0]
      simp only [List.map_cons, hf t0]
    · rw [updateFirstTool, if_neg h0]
      simp only [List.map_cons, updateFirstTool_map_name T f hf rest]

/-- Updating the first tool of a given name establishes a property of the
updated tool. -/
theorem updateFirstTool_establishes (T : String) (f : McpTool → McpTool)
    (P : McpTool → Prop) (hP : ∀ t, t.name = T → (f t).name = T ∧ P (f t)) :
    ∀ ts : List McpTool, T ∈ ts.map (fun t => t.name) →
      ∃ t ∈ updateFirstTool T f ts, t.name = T ∧ P t
  | [], hT => absurd hT (by simp)
  | t0 :: rest, hT => by
    by_cases h0 : t0.name = T
    · rw [updateFirstTool, if_pos h0]
      exact ⟨f t0, List.mem_cons_self _ _, (hP t0 h0).1, (hP t0 h0).2⟩
    · rw [updateFirstTool, if_neg h0]
      have hT' : T ∈ rest.map fun t => t.name := by
        rw [List.map_cons] at hT
        rcases List.mem_cons.mp hT with h1 | h1
        · exact absurd h1.symm h0
        · exact h1
      obtain ⟨t, ht, hp⟩ := updateFirstTool_establishes T f P hP rest hT'
      exact ⟨t, List.mem_cons_of_mem _ ht, hp⟩

/-- Updating a tool with a property-preserving function keeps a witness of
the property in the list. -/
theorem updateFirstTool_preserves (T2 : String) (f : McpTool → McpTool)
    (Q : McpTool → Prop) (hQ : ∀ t, Q t → Q (f t)) :
    ∀ ts : List McpTool, (∃ t ∈ ts, Q t) →
      ∃ t ∈ updateFirstTool T2 f ts, Q t
  | [], hex => absurd hex (by simp)
  | t0 :: rest, hex => by
    obtain ⟨t, ht, hq⟩ := hex
    by_cases h0 : t0.name = T2
    · rw [updateFirstTool, if_pos h0]
      rcases List.mem_cons.mp ht with rfl | h1
      · exact ⟨f t, List.mem_cons_self _ _, hQ t hq⟩
      · exact ⟨t, List.mem_cons_of_mem _ h1, hq⟩
    · rw [updateFirstTool, if_neg h0]
      rcases List.mem_cons.mp ht with rfl | h1
      · exact ⟨t, List.mem_cons_self _ _, hq⟩
      · obtain ⟨t2, ht2, hq2⟩ :=
          updateFirstTool_preserves T2 f Q hQ rest ⟨t, h1, hq⟩
        exact ⟨t2, List.mem_cons_of_mem _ ht2, hq2⟩

theorem toolStateOf_alwaysAllow_mem (ts : List McpTool) (T : String)
    (hex : ∃ t ∈ ts, t.name = T ∧ t.alwaysAllow = true) :
    T ∈ (toolStateOf ts).alwaysAllow := by
  obtain ⟨t, ht, hn, ha⟩ := hex
  exact List.mem_map.mpr ⟨t, List.mem_filter.mpr ⟨ht, by simp [ha]⟩, hn⟩

theorem toolStateOf_disabledTools_mem (ts : List McpTool) (T : String)
    (hex : ∃ t ∈ ts, t.name = T ∧ t.enabledForPrompt = false) :
    T ∈ (toolStateOf ts).disabledTools := by
  obtain ⟨t, ht, hn, ha⟩ := hex
  exact List.mem_map.mpr ⟨t, List.mem_filter.mpr ⟨ht, by simp [ha]⟩, hn⟩

/-- Connections named S of memory source after the refresh carry exactly the
flags of the snapshot that the refresh took before tearing down. -/
theorem refresh_flags (ext : Ext) (hst : HubState) (S : String)
    (st : ToolStatePair)
    (hlook : lookupA (saveMemoryServerToolStates hst).memoryServerToolStates S
      = some st) :
    ∀ c' ∈ (refreshInMemoryServers ext hst).1.connections,
      c'.server.source = some Source.memory → c'.server.name = S →
      ∀ ts', c'.server.tools = some ts' →
      ∀ t ∈ ts', t.alwaysAllow = st.alwaysAllow.contains t.name
        ∧ t.enabledForPrompt = !(st.disabledTools.contains t.name) := by
  intro c' hc' hsrc hname ts' hts' t ht
  simp only [refreshInMemoryServers] at hc'
  refine restore_flags_correct _ S st ?_ c' hc' hsrc hname ts' hts' t ht
  rw [initializeInMemoryFileCoolServer_toolStates,
    deleteConnectionsNamed_toolStates]
  exact hlook

/-- C7: for a memory (ephemeral) server S whose tool list contains tools
named T and T2, setting alwaysAllow = true on T and placing T2 in
disabledTools, then running refreshInMemoryServers, leaves every rebuilt
memory connection named S with every tool named T carrying
alwaysAllow = true and every tool named T2 carrying
enabledForPrompt = false: the permission state survives the full teardown
and rebuild. -/
theorem ephemeral_permission_durability (ext : Ext) (h : HubState)
    (S T T2 : String) (c : McpConnection) (ts : List McpTool)
    (hnodup : ((h.connections.filter fun cc => decide (cc.server.source = some Source.memory)).map
        fun cc => cc.server.name).Nodup)
    (hfind : findConnection h.connections S (some Source.memory) = some c)
    (htools : c.server.tools = some ts)
    (hT : T ∈ ts.map fun t => t.name) (hT2 : T2 ∈ ts.map fun t => t.name) :
    ∀ c2 ∈ (refreshInMemoryServers ext
        (toggleToolEnabledForPromptMemory (toggleToolAlwaysAllowMemory h S T true) S T2 false)).1.connections,
      c2.server.source = some Source.memory → c2.server.name = S →
      ∀ ts2, c2.server.tools = some ts2 →
      ∀ t ∈ ts2, (t.name = T → t.alwaysAllow = true)
        ∧ (t.name = T2 → t.enabledForPrompt = false) := by
  have hcp : c.server.name = S ∧ c.server.source = some Source.memory := by
    have := List.find?_some hfind
    simpa using this
  have hconn1 : (toggleToolAlwaysAllowMemory h S T true).connections
      = updateFirstConnection S Source.memory (mapToolsConn (updateFirstTool T (applyToolFlag ToolListName.alwaysAllow true))) h.connections := by
    simp only [toggleToolAlwaysAllowMemory, updateServerToolListMemory, hfind]
  have hfind1 : findConnection (toggleToolAlwaysAllowMemory h S T true).connections S (some Source.memory)
      = some ((mapToolsConn (updateFirstTool T (applyToolFlag ToolListName.alwaysAllow true))) c) := by
    rw [hconn1, findConnection_updateFirstConnection S Source.memory
      (mapToolsConn (updateFirstTool T (applyToolFlag ToolListName.alwaysAllow true)))
      (fun cc => ⟨rfl, rfl⟩) h.connections, hfind]
    rfl
  have hconn2 : (toggleToolEnabledForPromptMemory (toggleToolAlwaysAllowMemory h S T true) S T2 false).connections
      = updateFirstConnection S Source.memory (mapToolsConn (updateFirstTool T2 (applyToolFlag ToolListName.disabledTools true)))
          (toggleToolAlwaysAllowMemory h S T true).connections := by
    simp only [toggleToolEnabledForPromptMemory, updateServerToolListMemory,
      hfind1, Bool.not_false]
  have hfind2 : findConnection (toggleToolEnabledForPromptMemory (toggleToolAlwaysAllowMemory h S T true) S T2 false).connections S (some Source.memory)
      = some ((mapToolsConn (updateFirstTool T2 (applyToolFlag ToolListName.disabledTools true))) ((mapToolsConn (updateFirstTool T (applyToolFlag ToolListName.alwaysAllow true))) c)) := by
    rw [hconn2, findConnection_updateFirstConnection S Source.memory
      (mapToolsConn (updateFirstTool T2 (applyToolFlag ToolListName.disabledTools true)))
      (fun cc => ⟨rfl, rfl⟩) _, hfind1]
    rfl
  have hexT : ∃ t ∈ (updateFirstTool T2 (applyToolFlag ToolListName.disabledTools true) (updateFirstTool T (applyToolFlag ToolListName.alwaysAllow true) ts)),
      t.name = T ∧ t.alwaysAllow = true := by
    apply updateFirstTool_preserves T2
      (applyToolFlag ToolListName.disabledTools true)
      (fun t => t.name = T ∧ t.alwaysAllow = true) (fun t hq => ⟨hq.1, hq.2⟩)
    exact updateFirstTool_establishes T
      (applyToolFlag ToolListName.alwaysAllow true)
      (fun t => t.alwaysAllow = true) (fun t htn => ⟨htn, rfl⟩) ts hT
  have hexT2 : ∃ t ∈ (updateFirstTool T2 (applyToolFlag ToolListName.disabledTools true) (updateFirstTool T (applyToolFlag ToolListName.alwaysAllow true) ts)),
      t.name = T2 ∧ t.enabledForPrompt = false := by
    apply updateFirstTool_establishes T2
      (applyToolFlag ToolListName.disabledTools true)
      (fun t => t.enabledForPrompt = false) (fun t htn => ⟨htn, rfl⟩)
    rw [updateFirstTool_map_name T
      (applyToolFlag ToolListName.alwaysAllow true) (fun t => rfl) ts]
    exact hT2
  have htools2 : ((mapToolsConn (updateFirstTool T2 (applyToolFlag ToolListName.disabledTools true))) ((mapToolsConn (updateFirstTool T (applyToolFlag ToolListName.alwaysAllow true))) c)).server.tools = some (updateFirstTool T2 (applyToolFlag ToolListName.disabledTools true) (updateFirstTool T (applyToolFlag ToolListName.alwaysAllow true) ts)) := by
    simp only [mapToolsConn, htools]
    rfl
  have hlook : lookupA
      (saveMemoryServerToolStates (toggleToolEnabledForPromptMemory (toggleToolAlwaysAllowMemory h S T true) S T2 false)).memoryServerToolStates S
      = some (toolStateOf (updateFirstTool T2 (applyToolFlag ToolListName.disabledTools true) (updateFirstTool T (applyToolFlag ToolListName.alwaysAllow true) ts))) := by
    simp only [saveMemoryServerToolStates]
    rw [hconn2, filter_memory_updateFirstConnection S
        (mapToolsConn (updateFirstTool T2 (applyToolFlag ToolListName.disabledTools true))) (fun cc => rfl),
        hconn1, filter_memory_updateFirstConnection S
        (mapToolsConn (updateFirstTool T (applyToolFlag ToolListName.alwaysAllow true))) (fun cc => rfl)]
    have hnames : ((updateFirstConnection S Source.memory (mapToolsConn (updateFirstTool T2 (applyToolFlag ToolListName.disabledTools true)))
          (updateFirstConnection S Source.memory (mapToolsConn (updateFirstTool T (applyToolFlag ToolListName.alwaysAllow true)))
            (h.connections.filter fun cc => decide (cc.server.source = some Source.memory)))).map
        fun cc => cc.server.name)
        = (h.connections.filter fun cc => decide (cc.server.source = some Source.memory)).map fun cc => cc.server.name := by
      rw [updateFirstConnection_map_name S Source.memory
          (mapToolsConn (updateFirstTool T2 (applyToolFlag ToolListName.disabledTools true))) (fun cc => rfl),
          updateFirstConnection_map_name S Source.memory
          (mapToolsConn (updateFirstTool T (applyToolFlag ToolListName.alwaysAllow true))) (fun cc => rfl)]
    have hmem2 : ((mapToolsConn (updateFirstTool T2 (applyToolFlag ToolListName.disabledTools true))) ((mapToolsConn (updateFirstTool T (applyToolFlag ToolListName.alwaysAllow true))) c))
        ∈ updateFirstConnection S Source.memory (mapToolsConn (updateFirstTool T2 (applyToolFlag ToolListName.disabledTools true)))
          (updateFirstConnection S Source.memory (mapToolsConn (updateFirstTool T (applyToolFlag ToolListName.alwaysAllow true)))
            (h.connections.filter fun cc => decide (cc.server.source = some Source.memory))) := by
      have hm : ((mapToolsConn (updateFirstTool T2 (applyToolFlag ToolListName.disabledTools true))) ((mapToolsConn (updateFirstTool T (applyToolFlag ToolListName.alwaysAllow true))) c)) ∈ (toggleToolEnabledForPromptMemory (toggleToolAlwaysAllowMemory h S T true) S T2 false).connections := by
        have hf2 := hfind2
        simp only [findConnection] at hf2
        exact List.mem_of_find?_eq_some hf2
      rw [hconn2, hconn1] at hm
      have hmf : ((mapToolsConn (updateFirstTool T2 (applyToolFlag ToolListName.disabledTools true))) ((mapToolsConn (updateFirstTool T (applyToolFlag ToolListName.alwaysAllow true))) c))
          ∈ ((updateFirstConnection S Source.memory (mapToolsConn (updateFirstTool T2 (applyToolFlag ToolListName.disabledTools true)))
            (updateFirstConnection S Source.memory (mapToolsConn (updateFirstTool T (applyToolFlag ToolListName.alwaysAllow true)))
              h.connections)).filter
            fun cc => decide (cc.server.source = some Source.memory)) :=
        List.mem_filter.mpr ⟨hm, by simp [mapToolsConn, hcp.2]⟩
      rw [filter_memory_updateFirstConnection S
          (mapToolsConn (updateFirstTool T2 (applyToolFlag ToolListName.disabledTools true))) (fun cc => rfl),
          filter_memory_updateFirstConnection S
          (mapToolsConn (updateFirstTool T (applyToolFlag ToolListName.alwaysAllow true))) (fun cc => rfl)] at hmf
      exact hmf
    have hlu := saveStatesList_lookup _ (toggleToolEnabledForPromptMemory (toggleToolAlwaysAllowMemory h S T true) S T2 false) S ((mapToolsConn (updateFirstTool T2 (applyToolFlag ToolListName.disabledTools true))) ((mapToolsConn (updateFirstTool T (applyToolFlag ToolListName.alwaysAllow true))) c))
      (by rw [hnames]; exact hnodup) hmem2 hcp.1
    rw [hlu, htools2]
    rfl
  intro c2 hc2 hsrc hname ts2 hts2 t ht
  have hflags := refresh_flags ext _ S _ hlook c2 hc2 hsrc hname ts2 hts2 t ht
  have hTin : T ∈ (toolStateOf (updateFirstTool T2 (applyToolFlag ToolListName.disabledTools true) (updateFirstTool T (applyToolFlag ToolListName.alwaysAllow true) ts))).alwaysAllow :=
    toolStateOf_alwaysAllow_mem _ T hexT
  have hT2in : T2 ∈ (toolStateOf (updateFirstTool T2 (applyToolFlag ToolListName.disabledTools true) (updateFirstTool T (applyToolFlag ToolListName.alwaysAllow true) ts))).disabledTools :=
    toolStateOf_disabledTools_mem _ T2 hexT2
  constructor
  · intro htT
    rw [hflags.1, htT]
    exact List.elem_eq_true_of_mem hTin
  · intro htT2
    rw [hflags.2, htT2]
    simpa using hT2in

/-- Witness for the C7 theorem at a concrete memory server with two tools. -/
theorem ephemeral_permission_durability_witness :
    (((memToolsHub.connections.filter fun cc =>
        decide (cc.server.source = some Source.memory)).map
        fun cc => cc.server.name).Nodup
      ∧ findConnection memToolsHub.connections "file-cool" (some Source.memory)
          = some memToolsConnSample
      ∧ memToolsConnSample.server.tools
          = some [{ name := "alpha" }, { name := "beta" }]
      ∧ "alpha" ∈ ([{ name := "alpha" }, { name := "beta" }] : List McpTool).map
          (fun t => t.name)
      ∧ "beta" ∈ ([{ name := "alpha" }, { name := "beta" }] : List McpTool).map
          (fun t => t.name))
    ∧ ∀ c2 ∈ (refreshInMemoryServers sampleExt
        (toggleToolEnabledForPromptMemory
          (toggleToolAlwaysAllowMemory memToolsHub "file-cool" "alpha" true)
          "file-cool" "beta" false)).1.connections,
      c2.server.source = some Source.memory → c2.server.name = "file-cool" →
      ∀ ts2, c2.server.tools = some ts2 →
      ∀ t ∈ ts2, (t.name = "alpha" → t.alwaysAllow = true)
        ∧ (t.name = "beta" → t.enabledForPrompt = false) :=
  ⟨⟨by decide, by decide, rfl, by decide, by decide⟩,
   ephemeral_permission_durability sampleExt memToolsHub "file-cool" "alpha"
     "beta" memToolsConnSample [{ name := "alpha" }, { name := "beta" }]
     (by decide) (by decide) rfl (by decide) (by decide)⟩

end McpHubModel
